import Mathlib

/-!
Shallow embedding of the Zbozi feed server (`src/server.js`) and proofs about
the claims of the specification.  JavaScript strings are modelled as `List Char`,
JavaScript numbers as exact rationals (`ℚ`, `Option ℚ` with `none` standing for
a non-finite result such as `NaN`), and fallible operations return
`Option`/`Except`.  All scanners that consume more than one character per step
are written with an explicit fuel argument (initialised with the input length)
so that every definition is executable by kernel reduction.
-/

namespace Zbozi

/-- JavaScript strings are lists of characters. -/
abbrev Str := List Char

/-- Case-insensitive character equality, as used by the `i` flag of the
JavaScript regular expressions in `server.js` (the patterns are ASCII). -/
def ciEq (a b : Char) : Bool := a.toLower == b.toLower

/-- Case-insensitive test that `pat` is a prefix of `l`. -/
def isPrefixCI : Str → Str → Bool
  | [], _ => true
  | _ :: _, [] => false
  | p :: ps, c :: cs => ciEq p c && isPrefixCI ps cs

/-- Case-insensitive test that `pat` occurs somewhere in `l`. -/
def occursCI (pat : Str) : Str → Bool
  | [] => isPrefixCI pat []
  | c :: cs => isPrefixCI pat (c :: cs) || occursCI pat cs

/-- The character class matched by `\s` in JavaScript regular expressions and
removed by `String.prototype.trim` (ECMAScript WhiteSpace ∪ LineTerminator). -/
def isJsSpace (c : Char) : Bool :=
  [' ', '\t', '\n', '\r', '\u000B', '\u000C', '\u00A0', '\u1680',
   '\u2000', '\u2001', '\u2002', '\u2003', '\u2004', '\u2005', '\u2006',
   '\u2007', '\u2008', '\u2009', '\u200A', '\u2028', '\u2029', '\u202F',
   '\u205F', '\u3000', '\uFEFF'].contains c

/-- JavaScript `String.prototype.trim`. -/
def jsTrim (l : Str) : Str :=
  ((l.dropWhile isJsSpace).reverse.dropWhile isJsSpace).reverse

/-- Collapse a run of adjacent spaces to a single space (helper for the
`replace(/\s+/g, " ")` idiom). -/
def squeeze : Str → Str
  | [] => []
  | [c] => [c]
  | a :: b :: rest =>
    if a = ' ' ∧ b = ' ' then squeeze (b :: rest) else a :: squeeze (b :: rest)

/-- JavaScript `replace(/\s+/g, " ")`: every maximal whitespace run becomes a
single space. -/
def collapseWs (l : Str) : Str :=
  squeeze (l.map fun c => if isJsSpace c then ' ' else c)

/-- Fuelled core of the global case-insensitive literal replacement
`String.prototype.replace(/pat/gi, rep)`: scan left to right, replacing
non-overlapping occurrences of `pat` by `rep`. -/
def replCore (pat rep : Str) : Nat → Str → Str
  | 0, l => l
  | _ + 1, [] => []
  | fuel + 1, c :: cs =>
    if pat ≠ [] && isPrefixCI pat (c :: cs) then
      rep ++ replCore pat rep fuel (cs.drop (pat.length - 1))
    else
      c :: replCore pat rep fuel cs

/-- Global case-insensitive literal replacement (`replace(/pat/gi, rep)`). -/
def replaceAllCI (pat rep l : Str) : Str := replCore pat rep l.length l

/-- Entity patterns and replacements of `decodeBasicEntities`, in source order. -/
def entNbsp : Str := "&nbsp;".toList
def entAmp : Str := "&amp;".toList
def entQuot : Str := "&quot;".toList
def entApos : Str := "&apos;".toList
def entLt : Str := "&lt;".toList
def entGt : Str := "&gt;".toList

/-- The `decodeBasicEntities` function of `server.js`: six successive global
case-insensitive replacements; falsy (empty) input yields the empty string. -/
def decodeBasicEntities (s : Str) : Str :=
  if s = [] then []
  else
    replaceAllCI entGt ['>']
      (replaceAllCI entLt ['<']
        (replaceAllCI entApos ['\'']
          (replaceAllCI entQuot ['"']
            (replaceAllCI entAmp ['&']
              (replaceAllCI entNbsp [' '] s)))))

/-- The `xmlSafeText` function of `server.js`: entity decoding, whitespace
collapsing, then trimming; falsy input yields the empty string. -/
def xmlSafeText (s : Str) : Str :=
  if s = [] then [] else jsTrim (collapseWs (decodeBasicEntities s))

/-- The `cleanDescription` function of `server.js`: normalise, then cut to 317
characters plus an ellipsis when longer than 320 characters. -/
def cleanDescription (text : Str) : Str :=
  if text = [] then []
  else
    let t := xmlSafeText text
    if t.length > 320 then t.take 317 ++ "...".toList else t

/-- Case-sensitive substring test (`String.prototype.includes`). -/
def strIncludes (needle : Str) : Str → Bool
  | [] => needle.isPrefixOf []
  | c :: cs => needle.isPrefixOf (c :: cs) || strIncludes needle cs

/-- JavaScript `a || b` for strings: the empty string is falsy. -/
def strOr (a b : Str) : Str := if a = [] then b else a

/-- JavaScript `String.prototype.toLowerCase` (ASCII range, which is all the
source needs for its `"throttled"` test and option-name comparisons). -/
def strToLower (l : Str) : Str := l.map Char.toLower

/-- First index (0-based) at which `pat` occurs case-insensitively in `l`. -/
def firstIdxCI (pat : Str) : Str → Option Nat
  | [] => if isPrefixCI pat [] then some 0 else none
  | c :: cs =>
    if isPrefixCI pat (c :: cs) then some 0
    else (firstIdxCI pat cs).map (· + 1)

/-- Fuelled scanner for `replace(/<tag[\s\S]*?>[\s\S]*?<\/tag>/gi, " ")`: at a
position where `<tag` matches, the lazy groups extend to the first `>` and then
to the first `</tag>`; if either is missing there is no match at this position
and the scan advances one character. -/
def stripBlockCore (openPat closePat : Str) : Nat → Str → Str
  | 0, l => l
  | _ + 1, [] => []
  | fuel + 1, c :: cs =>
    if isPrefixCI openPat (c :: cs) then
      let rest := (c :: cs).drop openPat.length
      match rest.findIdx? (· = '>') with
      | none => c :: stripBlockCore openPat closePat fuel cs
      | some i =>
        let rest2 := rest.drop (i + 1)
        match firstIdxCI closePat rest2 with
        | none => c :: stripBlockCore openPat closePat fuel cs
        | some j =>
          ' ' :: stripBlockCore openPat closePat fuel
            (rest2.drop (j + closePat.length))
    else c :: stripBlockCore openPat closePat fuel cs

/-- Remove `<tag ...> ... </tag>` blocks (content included), as the script and
style regexes of `stripHtml` do. -/
def stripBlock (tag : Str) (l : Str) : Str :=
  stripBlockCore ('<' :: tag) ('<' :: '/' :: tag ++ ['>']) l.length l

/-- Fuelled scanner for `replace(/<[^>]+>/g, " ")`: a `<` followed by at least
one non-`>` character and a closing `>` is replaced by a space. -/
def stripTagsCore : Nat → Str → Str
  | 0, l => l
  | _ + 1, [] => []
  | fuel + 1, c :: cs =>
    if c = '<' then
      match cs.findIdx? (· = '>') with
      | none => c :: stripTagsCore fuel cs
      | some i =>
        if i = 0 then c :: stripTagsCore fuel cs
        else ' ' :: stripTagsCore fuel (cs.drop (i + 1))
    else c :: stripTagsCore fuel cs

/-- Replace every `<[^>]+>` tag by a space. -/
def stripTags (l : Str) : Str := stripTagsCore l.length l

/-- The `stripHtml` function of `server.js`: drop script and style blocks,
remove remaining tags, collapse whitespace, trim; falsy input yields `""`. -/
def stripHtml (html : Str) : Str :=
  if html = [] then []
  else
    jsTrim (collapseWs (stripTags
      (stripBlock "style".toList (stripBlock "script".toList html))))

/-- The `getTranslation` function of `server.js`: value of the entry whose key
matches exactly, with falsy values collapsing to the empty string. -/
def getTranslation (translations : List (Str × Str)) (key : Str) : Str :=
  match translations.find? (fun t => t.1 = key) with
  | some t => t.2
  | none => []

/-- Numeric digit value of a character, if it is `0`..`9`. -/
def digitVal (c : Char) : Option Nat :=
  if '0' ≤ c ∧ c ≤ '9' then some (c.toNat - 48) else none

/-- Hexadecimal digit value of a character. -/
def hexVal (c : Char) : Option Nat :=
  if '0' ≤ c ∧ c ≤ '9' then some (c.toNat - 48)
  else if 'a' ≤ c ∧ c ≤ 'f' then some (c.toNat - 87)
  else if 'A' ≤ c ∧ c ≤ 'F' then some (c.toNat - 55)
  else none

/-- Value of a digit string in the given base, when every character is a digit
of that base (digit values supplied by `dv`). -/
def digitsValue (dv : Char → Option Nat) (base : Nat) (l : Str) : Option Nat :=
  l.foldl (fun acc c => match acc, dv c with
    | some a, some d => if d < base then some (a * base + d) else none
    | _, _ => none) (some 0)

/-- Parse the exponent part `e±ddd` of a JavaScript decimal literal. -/
def parseExponent (l : Str) : Option Int :=
  match l with
  | [] => some 0
  | e :: rest =>
    if e = 'e' ∨ e = 'E' then
      let (sgn, ds) : Int × Str :=
        match rest with
        | '+' :: r => (1, r)
        | '-' :: r => (-1, r)
        | r => (1, r)
      if ds ≠ [] ∧ ds.all fun c => (digitVal c).isSome then
        (digitsValue digitVal 10 ds).map fun n => sgn * (n : Int)
      else none
    else none

/-- Parse an unsigned JavaScript decimal literal `ddd[.ddd][e±ddd]` (at least
one digit in the integer or fraction part). -/
def parseDecimal (l : Str) : Option ℚ :=
  let intDigits := l.takeWhile fun c => (digitVal c).isSome
  let rest := l.drop intDigits.length
  let (fracDigits, rest2) : Str × Str :=
    match rest with
    | '.' :: r => (r.takeWhile fun c => (digitVal c).isSome,
                   (r.dropWhile fun c => (digitVal c).isSome))
    | r => ([], r)
  if intDigits = [] ∧ fracDigits = [] then none
  else
    match digitsValue digitVal 10 intDigits,
          digitsValue digitVal 10 fracDigits, parseExponent rest2 with
    | some ip, some fp, some ex =>
      some ((ip + (fp : ℚ) / (10 : ℚ) ^ fracDigits.length) * (10 : ℚ) ^ ex)
    | _, _, _ => none

/-- Model of the ECMAScript `Number(string)` conversion restricted to finite
results: `none` stands for `NaN` or an infinity.  Numbers are exact rationals;
the double-precision rounding and the overflow of huge finite literals to
`Infinity` are not modelled. -/
def jsNumber (s : Str) : Option ℚ :=
  let t := jsTrim s
  if t = [] then some 0
  else
    match t with
    | '0' :: x :: rest =>
      if x = 'x' ∨ x = 'X' then
        if rest ≠ [] then (digitsValue hexVal 16 rest).map (fun n => (n : ℚ))
        else none
      else if x = 'o' ∨ x = 'O' then
        if rest ≠ [] then (digitsValue digitVal 8 rest).map (fun n => (n : ℚ))
        else none
      else if x = 'b' ∨ x = 'B' then
        if rest ≠ [] then (digitsValue digitVal 2 rest).map (fun n => (n : ℚ))
        else none
      else parseDecimal t
    | '+' :: r => if r = "Infinity".toList then none else parseDecimal r
    | '-' :: r =>
      if r = "Infinity".toList then none else (parseDecimal r).map Neg.neg
    | _ => if t = "Infinity".toList then none else parseDecimal t

/-- Character of a single decimal digit. -/
def digitChar (n : Nat) : Char := Char.ofNat (48 + n)

/-- Decimal digits of a natural number (fuelled; most significant first). -/
def natDigitsAux : Nat → Nat → Str
  | 0, _ => []
  | fuel + 1, n =>
    if n < 10 then [digitChar n]
    else natDigitsAux fuel (n / 10) ++ [digitChar (n % 10)]

/-- Decimal representation of a natural number. -/
def natDigits (n : Nat) : Str := natDigitsAux (n + 1) n

/-- Decimal representation of an integer (JavaScript `String(int)`). -/
def intToStr (n : Int) : Str :=
  if n < 0 then '-' :: natDigits n.natAbs else natDigits n.natAbs

/-- Model of `Number.prototype.toFixed(2)` on exact rationals: round the
absolute value at two decimals (ties away from zero, per the ECMAScript "pick
the larger n" rule applied after the sign is split off), then print with
exactly two decimals.  The exponential form used for huge numbers is not
modelled. -/
def toFixed2 (q : ℚ) : Str :=
  let n : Nat := (⌊|q| * 100 + 1 / 2⌋).toNat
  (if q < 0 then ['-'] else []) ++
    natDigits (n / 100) ++ '.' :: (if n % 100 < 10 then ['0'] else []) ++
      natDigits (n % 100)

/-- The `formatPrice` function of `server.js`: `Number(amount)` printed with
two decimals, or the empty string when the conversion is not finite. -/
def formatPrice (amount : Str) : Str :=
  match jsNumber amount with
  | none => []
  | some n => toFixed2 n

/-- Default delivery time in days (`DELIVERY_DATE_DEFAULT`, env default `3`). -/
def DELIVERY_DATE_DEFAULT : Int := 3

/-- Feed cache TTL in seconds (`FEED_CACHE_SECONDS`, env default `900`). -/
def FEED_CACHE_SECONDS_DEFAULT : Int := 900

/-- A raw variant node of the admin GraphQL product query.  Absent (`null`)
string fields are the empty string; `inventoryQuantity` is `none` when the
field is missing or not a number; `price` is the `contextualPricing.price
.amount` decimal string, `none` when the whole contextual price is missing. -/
structure RawVariant where
  legacyResourceId : Str
  sku : Str
  barcode : Str
  inventoryQuantity : Option Int
  selectedOptions : List (Str × Str)
  price : Option Str
  deriving DecidableEq

/-- A raw product node of the admin GraphQL product query.  `images` is the
list of `images.edges[].node.url` values (an absent url is the empty string);
`translations` is the `cs`-locale key/value list. -/
structure RawProduct where
  legacyResourceId : Str
  title : Str
  vendor : Str
  handle : Str
  descriptionHtml : Str
  featuredImage : Option Str
  images : List Str
  translations : List (Str × Str)
  variants : List RawVariant
  deriving DecidableEq

/-- A feed item as pushed onto `items` in `feedHandler`. -/
structure Item where
  itemId : Str
  itemGroupId : Str
  productName : Str
  description : Str
  url : Str
  imgUrl : Str
  altImgUrls : List Str
  priceVat : Str
  manufacturer : Str
  ean : Str
  productNo : Str
  params : List (Str × Str)
  deliveryDate : Int
  deriving DecidableEq

/-- The `pickInStockVariant` function of `server.js`: first variant whose
inventory quantity is a number strictly greater than zero. -/
def pickInStockVariant : List RawVariant → Option RawVariant
  | [] => none
  | v :: vs =>
    match v.inventoryQuantity with
    | some q => if q > 0 then some v else pickInStockVariant vs
    | none => pickInStockVariant vs

/-- The `firstImageUrl` function of `server.js`:
`p.featuredImage?.url || p.images?.edges?.[0]?.node?.url || ""`. -/
def firstImageUrl (p : RawProduct) : Str :=
  strOr (p.featuredImage.getD []) (strOr (p.images.headD []) [])

/-- First-occurrence deduplication, in insertion order, as `[...new Set(urls)]`
produces (helper, with an accumulator of already-seen strings). -/
def dedupFirstAux (seen : List Str) : List Str → List Str
  | [] => []
  | a :: l =>
    if a ∈ seen then dedupFirstAux seen l else a :: dedupFirstAux (a :: seen) l

/-- First-occurrence deduplication, in insertion order. -/
def dedupFirst (l : List Str) : List Str := dedupFirstAux [] l

/-- The `alternativeImageUrls` function of `server.js`: deduplicated truthy
image urls minus the primary one, capped at ten. -/
def alternativeImageUrls (p : RawProduct) (primaryUrl : Str) : List Str :=
  ((dedupFirst (p.images.filter (· ≠ []))).filter (· ≠ primaryUrl)).take 10

/-- The `findSizeValue` function of `server.js`: value of the first option
named `size`, else of the first named `velikost` (case-insensitively),
normalised; empty when absent or falsy. -/
def findSizeValue (selectedOptions : List (Str × Str)) : Str :=
  let hit :=
    match selectedOptions.find? fun o => strToLower o.1 = "size".toList with
    | some o => some o
    | none => selectedOptions.find? fun o => strToLower o.1 = "velikost".toList
  match hit with
  | some o => if o.2 ≠ [] then xmlSafeText o.2 else []
  | none => []

/-- The market price resolution of `feedHandler` (`server.js` lines
333–334): `v.contextualPricing?.price?.amount ? formatPrice(amount) : ""`. -/
def resolvedPrice (v : RawVariant) : Str :=
  match v.price with
  | some amount => if amount ≠ [] then formatPrice amount else []
  | none => []

/-- The per-product body of the pagination loop of `feedHandler`
(`server.js` lines 310–371): `none` models `continue` (the product is
skipped), `some` the item pushed onto `items`.  `domain` is
`SHOP_PUBLIC_DOMAIN`. -/
def processProduct (domain : Str) (p : RawProduct) : Option Item :=
  match pickInStockVariant p.variants with
  | none => none
  | some v =>
    let imgUrl := firstImageUrl p
    if imgUrl = [] then none
    else
      let translations := p.translations
      let titleCsRaw := strOr (getTranslation translations "title".toList) p.title
      let productName := xmlSafeText titleCsRaw
      let descHtmlCsRaw :=
        strOr (getTranslation translations "description_html".toList)
          (strOr (getTranslation translations "body_html".toList)
            p.descriptionHtml)
      let description := cleanDescription (xmlSafeText (stripHtml descHtmlCsRaw))
      let priceVat := resolvedPrice v
      if priceVat = [] then none
      else
        let variantIdNum := jsTrim v.legacyResourceId
        if variantIdNum = [] then none
        else
          let url := "https://".toList ++ domain ++ "/products/".toList ++
            p.handle ++ "?variant=".toList ++ variantIdNum
          let manufacturer := xmlSafeText p.vendor
          let ean := xmlSafeText v.barcode
          let itemGroupId := xmlSafeText (jsTrim p.legacyResourceId)
          let itemId := xmlSafeText variantIdNum
          let productNo := strOr (xmlSafeText v.sku) productName
          let altImgUrls := alternativeImageUrls p imgUrl
          let sizeVal := findSizeValue v.selectedOptions
          let params : List (Str × Str) :=
            if sizeVal ≠ [] then [("Velikost".toList, sizeVal)] else []
          some
            { itemId := itemId
              itemGroupId := itemGroupId
              productName := productName
              description := description
              url := xmlSafeText url
              imgUrl := xmlSafeText imgUrl
              altImgUrls := altImgUrls.map xmlSafeText
              priceVat := xmlSafeText priceVat
              manufacturer := manufacturer
              ean := ean
              productNo := productNo
              params := params
              deliveryDate := DELIVERY_DATE_DEFAULT }

/-- The assembled feed-item list: the pagination loop applies the per-product
body, in order, to every product of every fetched page. -/
def buildFeedItems (domain : Str) (products : List RawProduct) : List Item :=
  products.filterMap (processProduct domain)

/-- An XML element tree (text serialisation by `xmlbuilder2` is external to
the repository and left abstract). -/
inductive XmlNode where
  | elem (tag : Str) (attrs : List (Str × Str)) (children : List XmlNode)
  | txt (s : Str)

/-- Tag of a node (text nodes have no tag). -/
def XmlNode.tag : XmlNode → Str
  | .elem t _ _ => t
  | .txt _ => []

/-- Children of a node. -/
def XmlNode.children : XmlNode → List XmlNode
  | .elem _ _ cs => cs
  | .txt _ => []

/-- A `PARAM` element with its name/value children, as built by
`buildZboziXml`. -/
def paramNode (p : Str × Str) : XmlNode :=
  .elem "PARAM".toList []
    [.elem "PARAM_NAME".toList [] [.txt p.1], .elem "VAL".toList [] [.txt p.2]]

/-- The `SHOPITEM` element for one item, with the child elements emitted in
the order of `buildZboziXml` in `server.js` (lines 218–247): the four
conditional elements are emitted only when their field is truthy. -/
def shopItemNode (item : Item) : XmlNode :=
  .elem "SHOPITEM".toList []
    ([.elem "ITEM_ID".toList [] [.txt item.itemId]]
      ++ (if item.itemGroupId ≠ [] then
            [.elem "ITEMGROUP_ID".toList [] [.txt item.itemGroupId]] else [])
      ++ [.elem "PRODUCTNAME".toList [] [.txt item.productName],
          .elem "URL".toList [] [.txt item.url],
          .elem "IMGURL".toList [] [.txt item.imgUrl],
          .elem "PRICE_VAT".toList [] [.txt item.priceVat]]
      ++ (if item.manufacturer ≠ [] then
            [.elem "MANUFACTURER".toList [] [.txt item.manufacturer]] else [])
      ++ (if item.ean ≠ [] then
            [.elem "EAN".toList [] [.txt item.ean]] else [])
      ++ (if item.productNo ≠ [] then
            [.elem "PRODUCTNO".toList [] [.txt item.productNo]] else [])
      ++ [.elem "CONDITION".toList [] [.txt "new".toList],
          .elem "DESCRIPTION".toList [] [.txt item.description]]
      ++ item.altImgUrls.map (fun u =>
            .elem "IMGURL_ALTERNATIVE".toList [] [.txt u])
      ++ item.params.map paramNode
      ++ [.elem "DELIVERY_DATE".toList [] [.txt (intToStr item.deliveryDate)]])

/-- The `buildZboziXml` function of `server.js`: the `SHOP` root with the
Zbozi namespace attribute and one `SHOPITEM` child per item, in order. -/
def buildZboziXml (items : List Item) : XmlNode :=
  .elem "SHOP".toList
    [("xmlns".toList, "http://www.zbozi.cz/ns/offer/1.0".toList)]
    (items.map shopItemNode)

/-- The two module-level feed-cache slots (`cachedFeedXml`, `cachedFeedUntil`)
of `server.js`.  Times are in milliseconds, as `Date.now()` returns. -/
structure CacheState where
  cachedFeedXml : Str
  cachedFeedUntil : Int
  deriving DecidableEq

/-- An HTTP response body as the handler produces it: the XML document text,
or the JSON error object `{ error, hint }`. -/
inductive RespBody where
  | xmlDoc (s : Str)
  | errJson (error hint : Str)
  deriving DecidableEq

/-- The response the handler sends: status, `Content-Type` header, body. -/
structure HttpResponse where
  status : Nat
  contentType : Str
  body : RespBody
  deriving DecidableEq

/-- Result of one `feedHandler` request: the new cache state, the HTTP
response, and whether the upstream data source was queried at all. -/
structure HandlerResult where
  state : CacheState
  response : HttpResponse
  didQuery : Bool
  deriving DecidableEq

/-- The fixed remediation hint of the 500 error body in `server.js`. -/
def FEED_ERROR_HINT : Str :=
  ("If you see THROTTLED, increase FEED_CACHE_SECONDS and ensure Zbozi " ++
    "validation isn").toList ++ '\'' :: "t repeatedly fetching during tests.".toList

/-- The content type of the success response. -/
def XML_CONTENT_TYPE : Str := "application/xml; charset=utf-8".toList

/-- The content type of the error response (`res.type("application/json")`). -/
def JSON_CONTENT_TYPE : Str := "application/json".toList

/-- The `feedHandler` of `server.js` as a state transition on the cache
slots.  `now` is `Date.now()` at entry, `buildNow` is `Date.now()` after the
rebuild (used for the new expiry), `feedCacheSeconds` is the configured TTL,
and `build` is the outcome of the pagination-and-serialisation pipeline: the
serialised XML on success, the thrown error's message on failure (the network
interaction inside the build is abstracted into this argument). -/
def feedHandler (feedCacheSeconds : Int) (now buildNow : Int)
    (build : Except Str Str) (st : CacheState) : HandlerResult :=
  if st.cachedFeedXml ≠ [] ∧ now < st.cachedFeedUntil then
    { state := st
      response :=
        { status := 200, contentType := XML_CONTENT_TYPE
          body := .xmlDoc st.cachedFeedXml }
      didQuery := false }
  else
    match build with
    | .ok xml =>
      { state :=
          { cachedFeedXml := xml
            cachedFeedUntil := buildNow + feedCacheSeconds * 1000 }
        response :=
          { status := 200, contentType := XML_CONTENT_TYPE
            body := .xmlDoc xml }
        didQuery := true }
    | .error e =>
      { state := st
        response :=
          { status := 500, contentType := JSON_CONTENT_TYPE
            body := .errJson e FEED_ERROR_HINT }
        didQuery := true }

/-- A GraphQL error entry: `extensions.code` and `message`. -/
structure GqlError where
  code : Option Str
  message : Str
  deriving DecidableEq

/-- The `extensions.cost.throttleStatus` metadata of a response body. -/
structure ThrottleStatus where
  restoreRate : Option ℚ
  currentlyAvailable : Option ℚ
  deriving DecidableEq

/-- A parsed JSON response body of the admin GraphQL endpoint: the error
list (`json?.errors || []`), the optional throttle metadata, and the `data`
payload (left opaque as a string). -/
structure GqlBody where
  errors : List GqlError
  throttleStatus : Option ThrottleStatus
  payload : Str
  deriving DecidableEq

/-- One upstream HTTP response: status, raw `retry-after` header (absent =
`none`), and the body — `none` when the text does not parse as JSON. -/
structure UpstreamResp where
  status : Nat
  retryAfter : Option Str
  body : Option GqlBody
  deriving DecidableEq

/-- The failure modes `adminGraphQL` can throw, in the error taxonomy of the
specification: `nonJson` is the protocol error, `gqlErrors` the query error,
`httpError` the non-2xx error, `retryExhausted` the retry-budget error. -/
inductive GqlFailure where
  | nonJson (status : Nat)
  | gqlErrors (errors : List GqlError)
  | httpError (status : Nat)
  | retryExhausted
  deriving DecidableEq

/-- JavaScript `v || d` for numbers (`0` is falsy; an absent field yields the
default). -/
def numOr (v : Option ℚ) (d : ℚ) : ℚ :=
  match v with
  | some x => if x = 0 then d else x
  | none => d

/-- The retry-after value `Number(res.headers.get("retry-after") || "1")`:
an absent or empty header defaults to `"1"`; `none` models `NaN`. -/
def retryAfterNum (h : Option Str) : Option ℚ :=
  jsNumber (strOr (h.getD []) "1".toList)

/-- Milliseconds slept on an HTTP 429:
`Math.min(30, Math.max(1, retryAfter)) * 1000`, with `NaN` propagating to a
zero-delay timeout. -/
def sleepMsFor429 (h : Option Str) : ℚ :=
  match retryAfterNum h with
  | none => 0
  | some r => min 30 (max 1 r) * 1000

/-- What one loop iteration of `adminGraphQL` does with the response of the
given attempt (1-based), following the source order: parse the body, handle
HTTP 429, handle an API-reported throttle, throw on other GraphQL errors,
optionally pace when the remaining budget is low, throw on non-2xx, return
the data. -/
inductive AttemptStep where
  | retrySleep (ms : ℚ)
  | fail (pace : Option ℚ) (f : GqlFailure)
  | succeed (pace : Option ℚ) (payload : Str)
  deriving DecidableEq

/-- Classification of one attempt of `adminGraphQL` (`server.js` lines
119–180). -/
def classifyAttempt (attempt : Nat) (r : UpstreamResp) : AttemptStep :=
  match r.body with
  | none => .fail none (.nonJson r.status)
  | some b =>
    if r.status = 429 then .retrySleep (sleepMsFor429 r.retryAfter)
    else
      let throttled := b.errors.any fun e =>
        e.code = some "THROTTLED".toList ||
          strIncludes "throttled".toList (strToLower e.message)
      let restoreRate := numOr (b.throttleStatus.bind (·.restoreRate)) 50
      let currentlyAvailable :=
        numOr (b.throttleStatus.bind (·.currentlyAvailable)) 0
      if throttled then
        .retrySleep
          (if restoreRate > 0 then
            max 2000 ((⌈100 / restoreRate * 1000⌉ : Int) : ℚ)
          else min 30000 (500 * 2 ^ attempt))
      else if b.errors ≠ [] then .fail none (.gqlErrors b.errors)
      else
        let pace : Option ℚ :=
          if currentlyAvailable < 50 then some 1000 else none
        if ¬(200 ≤ r.status ∧ r.status ≤ 299) then
          .fail pace (.httpError r.status)
        else .succeed pace b.payload

/-- Trace of one `adminGraphQL` call: the sleeps performed (in ms, in
order), the number of attempts consumed, and the outcome. -/
structure RunTrace where
  sleeps : List ℚ
  attempts : Nat
  outcome : Except GqlFailure Str

/-- The retry loop of `adminGraphQL`, from a given attempt number with a
given number of attempts remaining; `resps a` is the upstream response to the
`a`-th request. -/
def runFrom (resps : Nat → UpstreamResp) (attempt : Nat) :
    Nat → RunTrace
  | 0 => { sleeps := [], attempts := 0, outcome := .error .retryExhausted }
  | remaining + 1 =>
    match classifyAttempt attempt (resps attempt) with
    | .retrySleep ms =>
      let t := runFrom resps (attempt + 1) remaining
      { sleeps := ms :: t.sleeps, attempts := t.attempts + 1
        outcome := t.outcome }
    | .fail pace f =>
      { sleeps := pace.toList, attempts := 1, outcome := .error f }
    | .succeed pace d =>
      { sleeps := pace.toList, attempts := 1, outcome := .ok d }

/-- The `adminGraphQL` function of `server.js`: at most eight attempts,
starting at attempt 1; exhausting them throws the retries-exhausted error. -/
def adminGraphQL (resps : Nat → UpstreamResp) : RunTrace :=
  runFrom resps 1 8

/-- An attempt outcome that makes the loop sleep and retry. -/
def isRetryStep : AttemptStep → Bool
  | .retrySleep _ => true
  | _ => false

/-- Modelled from the claim wording for the entity decoder: a single
left-to-right pass over the input that replaces each occurrence of one of the
six entity forms (matched case-insensitively) by its literal character and
leaves every other character untouched (fuelled; at most one form can match
at a given position since no form is a case-insensitive prefix of another). -/
def onePassFuel : Nat → Str → Str
  | 0, l => l
  | _ + 1, [] => []
  | fuel + 1, c :: cs =>
    if isPrefixCI entNbsp (c :: cs) then ' ' :: onePassFuel fuel ((c :: cs).drop 6)
    else if isPrefixCI entAmp (c :: cs) then '&' :: onePassFuel fuel ((c :: cs).drop 5)
    else if isPrefixCI entQuot (c :: cs) then '"' :: onePassFuel fuel ((c :: cs).drop 6)
    else if isPrefixCI entApos (c :: cs) then '\'' :: onePassFuel fuel ((c :: cs).drop 6)
    else if isPrefixCI entLt (c :: cs) then '<' :: onePassFuel fuel ((c :: cs).drop 4)
    else if isPrefixCI entGt (c :: cs) then '>' :: onePassFuel fuel ((c :: cs).drop 4)
    else c :: onePassFuel fuel cs

/-- Modelled from the claim wording: one-pass entity replacement (empty or
absent input yields the empty string). -/
def decodeEntitiesOnePassSpec (s : Str) : Str := onePassFuel s.length s

/-- The four adjacency patterns on which the sequential passes of
`decodeBasicEntities` cascade: an `&amp;` whose replacement `&` merges with
the directly following text into a later pass's pattern. -/
def cascadePats : List Str :=
  ["&amp;quot;".toList, "&amp;apos;".toList, "&amp;lt;".toList,
   "&amp;gt;".toList]

/-- Inputs free of the four cascade adjacencies. -/
def noCascade (l : Str) : Bool := cascadePats.all fun p => !(occursCI p l)

/-- The six passes of `decodeBasicEntities`, in application order (pattern,
single-character replacement). -/
def passes : List (Str × Char) :=
  [(entNbsp, ' '), (entAmp, '&'), (entQuot, '"'), (entApos, '\''),
   (entLt, '<'), (entGt, '>')]

/-- Apply a list of replacement passes from left to right. -/
def applyPasses (ps : List (Str × Char)) (l : Str) : Str :=
  ps.foldl (fun acc pr => replaceAllCI pr.1 [pr.2] acc) l

/-- Two strings clash when some aligned position holds characters that are
not case-insensitively equal (so no extension of the second can have the
first as a case-insensitive prefix). -/
def clashAt (p w : Str) : Bool := (p.zip w).any fun pc => !(ciEq pc.1 pc.2)

/-- Concrete in-stock, priced variant used as witness input. -/
def wVariant : RawVariant :=
  { legacyResourceId := "7".toList, sku := "S".toList, barcode := []
    inventoryQuantity := some 1, selectedOptions := [], price := some "5".toList }

/-- Concrete product whose variant has both a non-empty SKU and a variant
identifier; used as witness and counterexample input. -/
def wProduct : RawProduct :=
  { legacyResourceId := "1".toList, title := "T".toList, vendor := []
    handle := "h".toList, descriptionHtml := [], featuredImage := some "I".toList
    images := [], translations := [], variants := [wVariant] }

/-- Concrete public domain used in witness inputs. -/
def wDomain : Str := "d".toList

/-- The item `processProduct` emits for `wProduct`. -/
def wItem : Item :=
  { itemId := "7".toList, itemGroupId := "1".toList, productName := "T".toList
    description := [], url := "https://d/products/h?variant=7".toList
    imgUrl := "I".toList, altImgUrls := [], priceVat := "5.00".toList
    manufacturer := [], ean := [], productNo := "S".toList, params := []
    deliveryDate := 3 }

/-- Variant whose `legacyResourceId` is the literal text `&nbsp;`: it is not
JavaScript whitespace, so it survives `trim`, but `xmlSafeText` decodes it to
a space and collapses it away. -/
def nbspIdVariant : RawVariant :=
  { legacyResourceId := "&nbsp;".toList, sku := [], barcode := []
    inventoryQuantity := some 1, selectedOptions := [], price := some "5".toList }

/-- Product built around `nbspIdVariant`; counterexample input. -/
def nbspIdProduct : RawProduct :=
  { legacyResourceId := "1".toList, title := "T".toList, vendor := []
    handle := "h".toList, descriptionHtml := [], featuredImage := some "I".toList
    images := [], translations := [], variants := [nbspIdVariant] }

/-- Variant whose price amount is present but not numeric. -/
def badPriceVariant : RawVariant :=
  { legacyResourceId := "7".toList, sku := [], barcode := []
    inventoryQuantity := some 1, selectedOptions := []
    price := some "abc".toList }

/-- Product built around `badPriceVariant`; used to witness the price-skip
behaviour. -/
def badPriceProduct : RawProduct :=
  { legacyResourceId := "1".toList, title := "T".toList, vendor := []
    handle := "h".toList, descriptionHtml := [], featuredImage := some "I".toList
    images := [], translations := [], variants := [badPriceVariant] }

/-- A parsed HTTP 429 response carrying `retry-after: 2`. -/
def resp429 : UpstreamResp :=
  { status := 429, retryAfter := some "2".toList
    body := some { errors := [], throttleStatus := none, payload := [] } }

/-- An HTTP 429 response whose body is not valid JSON. -/
def respNonJson : UpstreamResp :=
  { status := 429, retryAfter := some "2".toList, body := none }

/-- Item with every optional field absent and no repeated elements; witness
input for the serializer claim. -/
def wItemBare : Item :=
  { itemId := "9".toList, itemGroupId := [], productName := "N".toList
    description := "D".toList, url := "u".toList, imgUrl := "i".toList
    altImgUrls := ["a1".toList, "a2".toList], priceVat := "1.00".toList
    manufacturer := [], ean := [], productNo := []
    params := [("Velikost".toList, "30 ml".toList)], deliveryDate := 3 }

/-- Text content of an element that wraps exactly one text node. -/
def elemText : XmlNode → Option Str
  | .elem _ _ [.txt s] => some s
  | _ => none

/-- Tags of the children of an item element, in emission order. -/
def shopItemTags (item : Item) : List Str :=
  (shopItemNode item).children.map XmlNode.tag

/-- The full schema order of the claim: id, group id, name, URL, image,
price, manufacturer, EAN, product number, condition, description, alternate
images, parameters, delivery date. -/
def masterTagOrder (item : Item) : List Str :=
  ["ITEM_ID".toList] ++ ["ITEMGROUP_ID".toList] ++
    ["PRODUCTNAME".toList, "URL".toList, "IMGURL".toList, "PRICE_VAT".toList] ++
    ["MANUFACTURER".toList] ++ ["EAN".toList] ++ ["PRODUCTNO".toList] ++
    ["CONDITION".toList, "DESCRIPTION".toList] ++
    List.replicate item.altImgUrls.length "IMGURL_ALTERNATIVE".toList ++
    List.replicate item.params.length "PARAM".toList ++
    ["DELIVERY_DATE".toList]

theorem runFrom_attempts_le (resps : Nat → UpstreamResp) :
    ∀ remaining attempt, (runFrom resps attempt remaining).attempts ≤ remaining := by
  intro remaining
  induction remaining with
  | zero => intro attempt; simp [runFrom]
  | succ n ih =>
    intro attempt
    simp only [runFrom]
    cases classifyAttempt attempt (resps attempt) with
    | retrySleep ms => simp; exact ih (attempt + 1)
    | fail pace f => simp
    | succeed pace d => simp

theorem runFrom_exhausted (resps : Nat → UpstreamResp) :
    ∀ remaining attempt,
      (∀ a, attempt ≤ a → a < attempt + remaining →
        isRetryStep (classifyAttempt a (resps a)) = true) →
      (runFrom resps attempt remaining).outcome = .error .retryExhausted := by
  intro remaining
  induction remaining with
  | zero => intro attempt _; simp [runFrom]
  | succ n ih =>
    intro attempt h
    have hhead : isRetryStep (classifyAttempt attempt (resps attempt)) = true :=
      h attempt (Nat.le_refl _) (by omega)
    have htail : ∀ a, attempt + 1 ≤ a → a < attempt + 1 + n →
        isRetryStep (classifyAttempt a (resps a)) = true := by
      intro a h1 h2; exact h a (by omega) (by omega)
    simp only [runFrom]
    cases hc : classifyAttempt attempt (resps attempt) with
    | retrySleep ms => simpa using ih (attempt + 1) htail
    | fail pace f => rw [hc] at hhead; simp [isRetryStep] at hhead
    | succeed pace d => rw [hc] at hhead; simp [isRetryStep] at hhead

/-- C3: the throttle-aware client performs at most 8 attempts; a parsed
HTTP 429 response makes the attempt sleep for the numeric `retry-after`
header value clamped to [1,30] seconds (in ms) and retry; and if all eight
attempts classify as a retryable throttle condition the call fails with the
retries-exhausted error instead of returning data. -/
theorem adminGraphQL_retry_policy :
    (∀ resps : Nat → UpstreamResp, (adminGraphQL resps).attempts ≤ 8) ∧
    (∀ (a : Nat) (r : UpstreamResp) (b : GqlBody) (q : ℚ),
      r.body = some b → r.status = 429 → retryAfterNum r.retryAfter = some q →
      classifyAttempt a r = .retrySleep (min 30 (max 1 q) * 1000) ∧
        1000 ≤ min 30 (max 1 q) * 1000 ∧ min 30 (max 1 q) * 1000 ≤ 30000) ∧
    (∀ resps : Nat → UpstreamResp,
      (∀ a ∈ List.range' 1 8, isRetryStep (classifyAttempt a (resps a)) = true) →
      (adminGraphQL resps).outcome = .error .retryExhausted) := by
  refine ⟨fun resps => runFrom_attempts_le resps 8 1, ?_, ?_⟩
  · intro a r b q hb hs hq
    have hone : (1 : ℚ) ≤ min 30 (max 1 q) :=
      le_min (by norm_num) (le_max_left 1 q)
    have hthirty : min 30 (max 1 q) ≤ 30 := min_le_left _ _
    refine ⟨?_, by linarith, by linarith⟩
    simp [classifyAttempt, hb, hs, sleepMsFor429, hq]
  · intro resps h
    apply runFrom_exhausted resps 8 1
    intro a h1 h2
    exact h a (by rw [List.mem_range'_1]; omega)

theorem adminGraphQL_retry_policy_witness :
    (adminGraphQL (fun _ => resp429)).attempts ≤ 8 ∧
    classifyAttempt 1 resp429 = .retrySleep (min 30 (max 1 2) * 1000) ∧
    (adminGraphQL (fun _ => resp429)).outcome = .error .retryExhausted := by
  refine ⟨adminGraphQL_retry_policy.1 _, ?_, ?_⟩
  · exact (adminGraphQL_retry_policy.2.1 1 resp429
      { errors := [], throttleStatus := none, payload := [] } 2 rfl rfl
      (by with_unfolding_all decide)).1
  · exact adminGraphQL_retry_policy.2.2 _ (by with_unfolding_all decide)

/-- C9: a 429 response whose body does not parse as JSON makes `adminGraphQL`
throw the protocol (non-JSON) error on that very attempt, with no sleep and
no retry: body parsing precedes the 429 status check, so the 429 retry rule
only applies to 429 responses with JSON bodies. -/
theorem adminGraphQL_nonJson_429_fails_immediately
    (resps : Nat → UpstreamResp)
    (hstatus : (resps 1).status = 429) (hbody : (resps 1).body = none) :
    adminGraphQL resps =
      { sleeps := [], attempts := 1, outcome := .error (.nonJson 429) } := by
  have hc : classifyAttempt 1 (resps 1) = .fail none (.nonJson 429) := by
    simp [classifyAttempt, hbody, hstatus]
  simp [adminGraphQL, runFrom, hc, Option.toList]

theorem adminGraphQL_nonJson_429_fails_immediately_witness :
    adminGraphQL (fun _ => respNonJson) =
      { sleeps := [], attempts := 1, outcome := .error (.nonJson 429) } :=
  adminGraphQL_nonJson_429_fails_immediately (fun _ => respNonJson) rfl rfl

/-- C4: when a cached document exists (non-empty) and its expiry has not
passed, the handler returns the stored document unchanged, leaves the cache
untouched and issues no upstream query; on a cache miss it rebuilds, stores
the new document with expiry `buildNow + ttl·1000` milliseconds (time of
store plus the configured TTL) and returns it; the configured TTL defaults
to 900 seconds. -/
theorem feedHandler_cache_policy :
    (∀ (fcs now bn : Int) (build : Except Str Str) (st : CacheState),
      st.cachedFeedXml ≠ [] → now < st.cachedFeedUntil →
      feedHandler fcs now bn build st =
        { state := st
          response := { status := 200, contentType := XML_CONTENT_TYPE
                        body := .xmlDoc st.cachedFeedXml }
          didQuery := false }) ∧
    (∀ (fcs now bn : Int) (xml : Str) (st : CacheState),
      ¬(st.cachedFeedXml ≠ [] ∧ now < st.cachedFeedUntil) →
      feedHandler fcs now bn (.ok xml) st =
        { state := { cachedFeedXml := xml
                     cachedFeedUntil := bn + fcs * 1000 }
          response := { status := 200, contentType := XML_CONTENT_TYPE
                        body := .xmlDoc xml }
          didQuery := true }) ∧
    FEED_CACHE_SECONDS_DEFAULT = 900 := by
  refine ⟨?_, ?_, rfl⟩
  · intro fcs now bn build st hne hlt
    simp [feedHandler, hne, hlt]
  · intro fcs now bn xml st hmiss
    simp only [feedHandler, if_neg hmiss]

theorem feedHandler_cache_policy_witness :
    feedHandler 900 5 6 (.error "boom".toList)
        { cachedFeedXml := "X".toList, cachedFeedUntil := 10 } =
      { state := { cachedFeedXml := "X".toList, cachedFeedUntil := 10 }
        response := { status := 200, contentType := XML_CONTENT_TYPE
                      body := .xmlDoc "X".toList }
        didQuery := false } ∧
    feedHandler 900 20 21 (.ok "Y".toList)
        { cachedFeedXml := "X".toList, cachedFeedUntil := 10 } =
      { state := { cachedFeedXml := "Y".toList
                   cachedFeedUntil := 21 + 900 * 1000 }
        response := { status := 200, contentType := XML_CONTENT_TYPE
                      body := .xmlDoc "Y".toList }
        didQuery := true } :=
  ⟨feedHandler_cache_policy.1 900 5 6 (.error "boom".toList)
      { cachedFeedXml := "X".toList, cachedFeedUntil := 10 }
      (by decide) (by decide),
    feedHandler_cache_policy.2.1 900 20 21 "Y".toList
      { cachedFeedXml := "X".toList, cachedFeedUntil := 10 } (by decide)⟩

/-- C5: when the rebuild fails with any error, the handler leaves both cache
slots exactly as they were and responds with HTTP 500, content type
`application/json`, and the JSON body carrying the error message and the
fixed remediation hint. -/
theorem feedHandler_error_leaves_cache
    (fcs now bn : Int) (e : Str) (st : CacheState)
    (hmiss : ¬(st.cachedFeedXml ≠ [] ∧ now < st.cachedFeedUntil)) :
    feedHandler fcs now bn (.error e) st =
      { state := st
        response := { status := 500, contentType := JSON_CONTENT_TYPE
                      body := .errJson e FEED_ERROR_HINT }
        didQuery := true } := by
  simp only [feedHandler, if_neg hmiss]

theorem feedHandler_error_leaves_cache_witness :
    feedHandler 900 20 21 (.error "boom".toList)
        { cachedFeedXml := "X".toList, cachedFeedUntil := 10 } =
      { state := { cachedFeedXml := "X".toList, cachedFeedUntil := 10 }
        response := { status := 500, contentType := JSON_CONTENT_TYPE
                      body := .errJson "boom".toList FEED_ERROR_HINT }
        didQuery := true } :=
  feedHandler_error_leaves_cache 900 20 21 "boom".toList
    { cachedFeedXml := "X".toList, cachedFeedUntil := 10 } (by decide)

/-- C8: on an input already in normal form (a fixed point of the normaliser,
which is what the truncation step of `cleanDescription` operates on), a
string longer than 320 characters is cut to its first 317 characters plus
the three-character ellipsis, giving exactly 320 characters, and a string of
at most 320 characters is returned unchanged. -/
theorem cleanDescription_truncation (t : Str) (hnorm : xmlSafeText t = t) :
    (t.length ≤ 320 → cleanDescription t = t) ∧
    (t.length > 320 →
      cleanDescription t = t.take 317 ++ "...".toList ∧
        (cleanDescription t).length = 320) := by
  constructor
  · intro hle
    by_cases ht : t = []
    · simp [cleanDescription, ht]
    · simp only [cleanDescription, if_neg ht, hnorm]
      rw [if_neg (by omega)]
  · intro hgt
    have ht : t ≠ [] := by
      intro h; rw [h] at hgt; simp at hgt
    have hres : cleanDescription t = t.take 317 ++ "...".toList := by
      simp only [cleanDescription, if_neg ht, hnorm]
      rw [if_pos hgt]
    refine ⟨hres, ?_⟩
    rw [hres]
    have : (t.take 317).length = 317 := by
      rw [List.length_take]; omega
    simp [this]

set_option maxRecDepth 40000 in
theorem cleanDescription_truncation_witness :
    cleanDescription (List.replicate 321 'a') =
        (List.replicate 321 'a').take 317 ++ "...".toList ∧
      (cleanDescription (List.replicate 321 'a')).length = 320 ∧
      cleanDescription (List.replicate 320 'a') = List.replicate 320 'a' :=
  ⟨((cleanDescription_truncation (List.replicate 321 'a') (by decide)).2
      (by decide)).1,
   ((cleanDescription_truncation (List.replicate 321 'a') (by decide)).2
      (by decide)).2,
   (cleanDescription_truncation (List.replicate 320 'a') (by decide)).1
      (by decide)⟩

theorem map_tag_of_const {α : Type} (l : List α) (f : α → XmlNode) (c : Str)
    (h : ∀ x, (f x).tag = c) :
    (l.map f).map XmlNode.tag = List.replicate l.length c := by
  induction l with
  | nil => rfl
  | cons a t ih => simp [h, ih, List.replicate_succ]

theorem shopItemTags_eq (item : Item) :
    shopItemTags item =
      ["ITEM_ID".toList] ++
        (if item.itemGroupId ≠ [] then ["ITEMGROUP_ID".toList] else []) ++
        ["PRODUCTNAME".toList, "URL".toList, "IMGURL".toList,
          "PRICE_VAT".toList] ++
        (if item.manufacturer ≠ [] then ["MANUFACTURER".toList] else []) ++
        (if item.ean ≠ [] then ["EAN".toList] else []) ++
        (if item.productNo ≠ [] then ["PRODUCTNO".toList] else []) ++
        ["CONDITION".toList, "DESCRIPTION".toList] ++
        List.replicate item.altImgUrls.length "IMGURL_ALTERNATIVE".toList ++
        List.replicate item.params.length "PARAM".toList ++
        ["DELIVERY_DATE".toList] := by
  have halt := map_tag_of_const item.altImgUrls
    (fun u => XmlNode.elem "IMGURL_ALTERNATIVE".toList [] [.txt u])
    "IMGURL_ALTERNATIVE".toList (fun x => rfl)
  have hpar := map_tag_of_const item.params paramNode "PARAM".toList
    (fun x => rfl)
  simp only [shopItemTags, shopItemNode, XmlNode.children, List.map_append,
    halt, hpar]
  split_ifs <;> simp [XmlNode.tag]

theorem mem_ite_singleton {α : Type} {c : Prop} [Decidable c] {a b : α} :
    (a ∈ if c then [b] else ([] : List α)) ↔ c ∧ a = b := by
  split_ifs with h <;> simp [h]

theorem count_ite (c : Prop) [Decidable c] (a : Str) (l₁ l₂ : List Str) :
    List.count a (if c then l₁ else l₂) =
      if c then List.count a l₁ else List.count a l₂ := by
  split_ifs <;> rfl

theorem shopItem_children_optional_content (item : Item) :
    ∀ n ∈ (shopItemNode item).children,
      (n.tag = "ITEMGROUP_ID".toList →
        elemText n = some item.itemGroupId ∧ item.itemGroupId ≠ []) ∧
      (n.tag = "MANUFACTURER".toList →
        elemText n = some item.manufacturer ∧ item.manufacturer ≠ []) ∧
      (n.tag = "EAN".toList →
        elemText n = some item.ean ∧ item.ean ≠ []) ∧
      (n.tag = "PRODUCTNO".toList →
        elemText n = some item.productNo ∧ item.productNo ≠ []) := by
  intro n hn
  simp only [shopItemNode, XmlNode.children, List.mem_append,
    List.mem_cons, List.not_mem_nil, or_false, List.mem_map,
    mem_ite_singleton, List.mem_singleton, or_assoc] at hn
  rcases hn with rfl | ⟨hc, rfl⟩ | rfl | rfl | rfl | rfl | ⟨hc, rfl⟩ |
    ⟨hc, rfl⟩ | ⟨hc, rfl⟩ | rfl | rfl | ⟨u, hu, rfl⟩ | ⟨u, hu, rfl⟩ | rfl <;>
    refine ⟨?_, ?_, ?_, ?_⟩ <;> intro ht <;>
    simp only [XmlNode.tag, paramNode, elemText] at ht ⊢ <;>
    first
      | exact hc
      | exact ⟨trivial, hc⟩
      | simp at ht

set_option maxHeartbeats 1600000 in
/-- C6: every item serialised by `buildZboziXml` appears as a `SHOPITEM`
child of the root, its child elements follow the fixed schema order (the tag
sequence is a sublist of the full schema order, with the repeated elements
counted exactly), the four optional elements (item-group id, manufacturer,
EAN, product number) are present exactly when their field is non-empty, and
whenever such an element is present it carries the non-empty field text —
never an empty element. -/
theorem buildZboziXml_schema (items : List Item) (item : Item)
    (hmem : item ∈ items) :
    shopItemNode item ∈ (buildZboziXml items).children ∧
    List.Sublist (shopItemTags item) (masterTagOrder item) ∧
    "ITEM_ID".toList ∈ shopItemTags item ∧
    "PRODUCTNAME".toList ∈ shopItemTags item ∧
    "URL".toList ∈ shopItemTags item ∧
    "IMGURL".toList ∈ shopItemTags item ∧
    "PRICE_VAT".toList ∈ shopItemTags item ∧
    "CONDITION".toList ∈ shopItemTags item ∧
    "DESCRIPTION".toList ∈ shopItemTags item ∧
    "DELIVERY_DATE".toList ∈ shopItemTags item ∧
    ("ITEMGROUP_ID".toList ∈ shopItemTags item ↔ item.itemGroupId ≠ []) ∧
    ("MANUFACTURER".toList ∈ shopItemTags item ↔ item.manufacturer ≠ []) ∧
    ("EAN".toList ∈ shopItemTags item ↔ item.ean ≠ []) ∧
    ("PRODUCTNO".toList ∈ shopItemTags item ↔ item.productNo ≠ []) ∧
    (shopItemTags item).count "IMGURL_ALTERNATIVE".toList =
      item.altImgUrls.length ∧
    (shopItemTags item).count "PARAM".toList = item.params.length ∧
    (∀ n ∈ (shopItemNode item).children,
      (n.tag = "ITEMGROUP_ID".toList →
        elemText n = some item.itemGroupId ∧ item.itemGroupId ≠ []) ∧
      (n.tag = "MANUFACTURER".toList →
        elemText n = some item.manufacturer ∧ item.manufacturer ≠ []) ∧
      (n.tag = "EAN".toList →
        elemText n = some item.ean ∧ item.ean ≠ []) ∧
      (n.tag = "PRODUCTNO".toList →
        elemText n = some item.productNo ∧ item.productNo ≠ [])) := by
  refine ⟨?_, ?_, ?_, ?_, ?_, ?_, ?_, ?_, ?_, ?_, ?_, ?_, ?_, ?_, ?_, ?_,
    shopItem_children_optional_content item⟩
  · simp only [buildZboziXml, XmlNode.children]
    exact List.mem_map_of_mem _ hmem
  · rw [shopItemTags_eq, masterTagOrder]
    refine List.Sublist.append (List.Sublist.append (List.Sublist.append
      (List.Sublist.append (List.Sublist.append (List.Sublist.append
        (List.Sublist.append (List.Sublist.append (List.Sublist.append
          ?_ ?_) ?_) ?_) ?_) ?_) ?_) ?_) ?_) ?_ <;>
      first
        | exact List.Sublist.refl _
        | (split_ifs
           · exact List.Sublist.refl _
           · exact List.nil_sublist _)
  all_goals rw [shopItemTags_eq]
  all_goals simp [mem_ite_singleton, List.mem_replicate, count_ite,
    List.count_append, List.count_replicate, List.count_cons, List.count_nil]

theorem buildZboziXml_schema_witness :
    shopItemNode wItemBare ∈ (buildZboziXml [wItemBare, wItem]).children ∧
    List.Sublist (shopItemTags wItemBare) (masterTagOrder wItemBare) ∧
    ("ITEMGROUP_ID".toList ∈ shopItemTags wItemBare ↔
      wItemBare.itemGroupId ≠ []) ∧
    ("MANUFACTURER".toList ∈ shopItemTags wItemBare ↔
      wItemBare.manufacturer ≠ []) ∧
    ("PRODUCTNO".toList ∈ shopItemTags wItemBare ↔
      wItemBare.productNo ≠ []) ∧
    (shopItemTags wItemBare).count "PARAM".toList =
      wItemBare.params.length := by
  obtain ⟨h1, h2, _, _, _, _, _, _, _, _, h11, h12, _, h14, _, h16, _⟩ :=
    buildZboziXml_schema [wItemBare, wItem] wItemBare (by decide)
  exact ⟨h1, h2, h11, h12, h14, h16⟩

/-- The characters `toFixed2` can produce. -/
theorem digitChar_mem (n : Nat) (h : n < 10) :
    digitChar n ∈ "0123456789".toList := by
  interval_cases n <;> decide

theorem natDigitsAux_mem (fuel : Nat) :
    ∀ n, ∀ c ∈ natDigitsAux fuel n, c ∈ "0123456789".toList := by
  induction fuel with
  | zero => intro n c hc; simp [natDigitsAux] at hc
  | succ f ih =>
    intro n c hc
    simp only [natDigitsAux] at hc
    split at hc
    · simp only [List.mem_singleton] at hc
      subst hc; exact digitChar_mem n (by omega)
    · rcases List.mem_append.mp hc with h1 | h1
      · exact ih (n / 10) c h1
      · simp only [List.mem_singleton] at h1
        subst h1; exact digitChar_mem (n % 10) (Nat.mod_lt n (by omega))

theorem natDigits_mem (n : Nat) : ∀ c ∈ natDigits n, c ∈ "0123456789".toList :=
  natDigitsAux_mem (n + 1) n

theorem toFixed2_mem (q : ℚ) : ∀ c ∈ toFixed2 q, c ∈ "0123456789-.".toList := by
  intro c hc
  have hsub : ∀ d ∈ "0123456789".toList, d ∈ "0123456789-.".toList := by decide
  simp only [toFixed2] at hc
  rcases List.mem_append.mp hc with h | h
  · rcases List.mem_append.mp h with h | h
    · rcases List.mem_append.mp h with h | h
      · split at h
        · simp only [List.mem_singleton] at h; subst h; decide
        · simp at h
      · exact hsub c (natDigits_mem _ c h)
    · rcases List.mem_cons.mp h with h | h
      · subst h; decide
      · split at h
        · simp only [List.mem_singleton] at h; subst h; decide
        · simp at h
  · exact hsub c (natDigits_mem _ c h)

theorem natDigits_ne_nil (n : Nat) : natDigits n ≠ [] := by
  show natDigitsAux (n + 1) n ≠ []
  rw [natDigitsAux]
  split <;> simp

theorem toFixed2_ne_nil (q : ℚ) : toFixed2 q ≠ [] := by
  simp only [toFixed2]
  intro h
  rcases List.append_eq_nil.mp h with ⟨h1, -⟩
  rcases List.append_eq_nil.mp h1 with ⟨-, h2⟩
  exact List.cons_ne_nil _ _ h2

/-- A single replacement pass leaves a string untouched when no character of
the string is case-insensitively equal to the pattern head. -/
theorem replCore_id (p₀ : Char) (ps rep : Str) :
    ∀ (fuel : Nat) (l : Str), (∀ c ∈ l, ciEq p₀ c = false) →
      replCore (p₀ :: ps) rep fuel l = l := by
  intro fuel
  induction fuel with
  | zero => intro l _; rfl
  | succ f ih =>
    intro l h
    cases l with
    | nil => rfl
    | cons c cs =>
      have hci : ciEq p₀ c = false := h c (List.mem_cons_self c cs)
      have hpre : isPrefixCI (p₀ :: ps) (c :: cs) = false := by
        simp [isPrefixCI, hci]
      simp only [replCore]
      rw [if_neg (by simp [hpre])]
      exact congrArg (List.cons c)
        (ih cs fun d hd => h d (List.mem_cons_of_mem c hd))

theorem replaceAllCI_id (pat rep l : Str) (p₀ : Char)
    (hp : pat.head? = some p₀) (h : ∀ c ∈ l, ciEq p₀ c = false) :
    replaceAllCI pat rep l = l := by
  cases pat with
  | nil => simp at hp
  | cons a ps =>
    simp only [List.head?_cons, Option.some.injEq] at hp
    subst hp
    exact replCore_id _ ps rep l.length l h

theorem decodeBasicEntities_id (s : Str)
    (h : ∀ c ∈ s, ciEq '&' c = false) : decodeBasicEntities s = s := by
  by_cases hs : s = []
  · simp [decodeBasicEntities, hs]
  · simp only [decodeBasicEntities, if_neg hs]
    rw [replaceAllCI_id entNbsp _ s '&' (by decide) h,
      replaceAllCI_id entAmp _ s '&' (by decide) h,
      replaceAllCI_id entQuot _ s '&' (by decide) h,
      replaceAllCI_id entApos _ s '&' (by decide) h,
      replaceAllCI_id entLt _ s '&' (by decide) h,
      replaceAllCI_id entGt _ s '&' (by decide) h]

theorem squeeze_id (l : Str) (h : ∀ c ∈ l, c ≠ ' ') : squeeze l = l := by
  induction l with
  | nil => rfl
  | cons a t ih =>
    cases t with
    | nil => rfl
    | cons b rest =>
      have ha : a ≠ ' ' := h a (by simp)
      rw [squeeze, if_neg (by tauto)]
      simp only [List.cons.injEq, true_and]
      exact ih fun c hc => h c (List.mem_cons_of_mem a hc)

theorem collapseWs_id (l : Str) (h : ∀ c ∈ l, isJsSpace c = false) :
    collapseWs l = l := by
  have hmap : (l.map fun c => if isJsSpace c then ' ' else c) = l.map id :=
    List.map_congr_left fun c hc => by simp [h c hc]
  rw [collapseWs, hmap, List.map_id]
  apply squeeze_id
  intro c hc hsp
  have := h c hc
  rw [hsp] at this
  exact absurd this (by decide)

theorem jsTrim_id (l : Str) (h : ∀ c ∈ l, isJsSpace c = false) :
    jsTrim l = l := by
  have h1 : l.dropWhile isJsSpace = l := by
    cases l with
    | nil => rfl
    | cons a t => rw [List.dropWhile_cons_of_neg (by simp [h a (by simp)])]
  have h2 : l.reverse.dropWhile isJsSpace = l.reverse := by
    cases hr : l.reverse with
    | nil => rfl
    | cons a t =>
      rw [List.dropWhile_cons_of_neg]
      simp only [Bool.not_eq_true]
      apply h
      rw [← List.mem_reverse, hr]
      simp
  simp [jsTrim, h1, h2]

theorem xmlSafeText_fixed (l : Str)
    (h : ∀ c ∈ l, ciEq '&' c = false ∧ isJsSpace c = false) :
    xmlSafeText l = l := by
  by_cases hl : l = []
  · simp [xmlSafeText, hl]
  · simp only [xmlSafeText, if_neg hl]
    rw [decodeBasicEntities_id l fun c hc => (h c hc).1,
      collapseWs_id l fun c hc => (h c hc).2,
      jsTrim_id l fun c hc => (h c hc).2]

theorem xmlSafeText_toFixed2 (q : ℚ) :
    xmlSafeText (toFixed2 q) = toFixed2 q := by
  apply xmlSafeText_fixed
  have hsafe : ∀ c ∈ "0123456789-.".toList,
      ciEq '&' c = false ∧ isJsSpace c = false := by decide
  exact fun c hc => hsafe c (toFixed2_mem q c hc)

theorem resolvedPrice_shape (v : RawVariant) (h : resolvedPrice v ≠ []) :
    ∃ q : ℚ, resolvedPrice v = toFixed2 q := by
  have hcase : v.price = none ∨ ∃ a, v.price = some a := by
    cases v.price
    · exact Or.inl rfl
    · exact Or.inr ⟨_, rfl⟩
  rcases hcase with hv | ⟨amount, hv⟩
  · simp [resolvedPrice, hv] at h
  · simp only [resolvedPrice, hv] at h ⊢
    by_cases ha : amount ≠ []
    · rw [if_pos ha] at h ⊢
      rcases hj : jsNumber amount with - | q
      · simp [formatPrice, hj] at h
      · simp only [formatPrice, hj]
        exact ⟨q, rfl⟩
    · rw [if_neg ha] at h; exact absurd rfl h

/-- C10: an amount that does not convert to a finite number makes
`formatPrice` return the empty string and makes the assembler skip the
product, and every emitted item's price string is the fixed two-decimal
rendering of some rational — never a non-numeric or empty string. -/
theorem formatPrice_nonfinite_skips :
    (∀ amount : Str, jsNumber amount = none → formatPrice amount = []) ∧
    (∀ (domain : Str) (p : RawProduct) (v : RawVariant) (amount : Str),
      pickInStockVariant p.variants = some v → v.price = some amount →
      jsNumber amount = none → processProduct domain p = none) ∧
    (∀ (domain : Str) (p : RawProduct) (itm : Item),
      processProduct domain p = some itm →
      ∃ q : ℚ, itm.priceVat = toFixed2 q ∧ itm.priceVat ≠ []) := by
  have hfp : ∀ amount : Str, jsNumber amount = none →
      formatPrice amount = [] := by
    intro amount h; simp [formatPrice, h]
  refine ⟨hfp, ?_, ?_⟩
  · intro domain p v amount hpick hprice hnum
    have hrp : resolvedPrice v = [] := by
      simp [resolvedPrice, hprice, hfp amount hnum]
    simp [processProduct, hpick, hrp]
  · intro domain p itm h
    cases hpick : pickInStockVariant p.variants with
    | none => simp [processProduct, hpick] at h
    | some v =>
      simp only [processProduct, hpick] at h
      by_cases h1 : firstImageUrl p = []
      · rw [if_pos h1] at h; exact absurd h (by simp)
      · rw [if_neg h1] at h
        by_cases h2 : resolvedPrice v = []
        · rw [if_pos h2] at h; exact absurd h (by simp)
        · rw [if_neg h2] at h
          by_cases h3 : jsTrim v.legacyResourceId = []
          · rw [if_pos h3] at h; exact absurd h (by simp)
          · rw [if_neg h3] at h
            injection h with h
            subst h
            obtain ⟨q, hq⟩ := resolvedPrice_shape v h2
            refine ⟨q, ?_, ?_⟩
            · show xmlSafeText (resolvedPrice v) = toFixed2 q
              rw [hq, xmlSafeText_toFixed2]
            · show xmlSafeText (resolvedPrice v) ≠ []
              rw [hq, xmlSafeText_toFixed2]
              exact toFixed2_ne_nil q

theorem formatPrice_nonfinite_skips_witness :
    formatPrice "abc".toList = [] ∧
    processProduct wDomain badPriceProduct = none :=
  ⟨formatPrice_nonfinite_skips.1 "abc".toList (by decide),
    formatPrice_nonfinite_skips.2.1 wDomain badPriceProduct badPriceVariant
      "abc".toList (by decide) rfl (by decide)⟩

/-- C2 counterexample: the product whose variant identifier is the literal
text `&nbsp;` passes the emptiness guard (the guard tests the merely-trimmed
identifier) yet its emitted item id, which is additionally entity-decoded
and whitespace-collapsed, is empty — an item with an empty id is emitted. -/
theorem empty_itemId_emitted_counterexample :
    (processProduct wDomain nbspIdProduct).map Item.itemId = some [] ∧
    (processProduct wDomain nbspIdProduct).isSome = true := by
  constructor <;> with_unfolding_all decide

/-- C2 (amended): a product whose selected variant has no resolvable market
price or whose trimmed variant identifier is empty is never emitted; every
emitted item has a non-empty price, and the trimmed variant identifier of
its selected variant is non-empty (though the emitted id field, which is
further entity-decoded and whitespace-collapsed, can still be empty in the
corner case of an identifier that decodes to whitespace only). -/
theorem processProduct_price_id_guards :
    (∀ (domain : Str) (p : RawProduct) (v : RawVariant),
      pickInStockVariant p.variants = some v →
      resolvedPrice v = [] ∨ jsTrim v.legacyResourceId = [] →
      processProduct domain p = none) ∧
    (∀ (domain : Str) (p : RawProduct) (itm : Item),
      processProduct domain p = some itm →
      itm.priceVat ≠ [] ∧
        ∃ v, pickInStockVariant p.variants = some v ∧
          jsTrim v.legacyResourceId ≠ []) := by
  constructor
  · intro domain p v hpick hskip
    rcases hskip with h | h <;> simp [processProduct, hpick, h]
  · intro domain p itm h
    cases hpick : pickInStockVariant p.variants with
    | none => simp [processProduct, hpick] at h
    | some v =>
      simp only [processProduct, hpick] at h
      by_cases h1 : firstImageUrl p = []
      · rw [if_pos h1] at h; exact absurd h (by simp)
      · rw [if_neg h1] at h
        by_cases h2 : resolvedPrice v = []
        · rw [if_pos h2] at h; exact absurd h (by simp)
        · rw [if_neg h2] at h
          by_cases h3 : jsTrim v.legacyResourceId = []
          · rw [if_pos h3] at h; exact absurd h (by simp)
          · rw [if_neg h3] at h
            injection h with h
            subst h
            obtain ⟨q, hq⟩ := resolvedPrice_shape v h2
            refine ⟨?_, v, rfl, h3⟩
            show xmlSafeText (resolvedPrice v) ≠ []
            rw [hq, xmlSafeText_toFixed2]
            exact toFixed2_ne_nil q

theorem processProduct_price_id_guards_witness :
    processProduct wDomain badPriceProduct = none :=
  processProduct_price_id_guards.1 wDomain badPriceProduct badPriceVariant
    (by decide) (Or.inl (by with_unfolding_all decide))

/-- C1 counterexample: `wProduct`'s selected variant has the non-empty SKU
`S`, yet the emitted item id is the variant identifier `7`, not the trimmed
SKU — the item id never prefers the SKU in this revision. -/
theorem itemId_ignores_sku_counterexample :
    (processProduct wDomain wProduct).map Item.itemId = some "7".toList ∧
    pickInStockVariant wProduct.variants = some wVariant ∧
    jsTrim wVariant.sku = "S".toList ∧
    "7".toList ≠ "S".toList := by
  refine ⟨?_, by decide, by decide, by decide⟩
  with_unfolding_all decide

/-- C1 (amended): the emitted item id always equals the selected variant's
platform identifier (its trimmed, entity-decoded and whitespace-normalised
legacy resource id) regardless of the SKU; the SKU instead feeds the product
number field, falling back to the product name; and a product whose trimmed
variant identifier is empty is skipped and never emitted. -/
theorem processProduct_itemId_policy :
    (∀ (domain : Str) (p : RawProduct) (v : RawVariant) (itm : Item),
      pickInStockVariant p.variants = some v →
      processProduct domain p = some itm →
      itm.itemId = xmlSafeText (jsTrim v.legacyResourceId) ∧
        jsTrim v.legacyResourceId ≠ [] ∧
        itm.productNo = strOr (xmlSafeText v.sku) itm.productName) ∧
    (∀ (domain : Str) (p : RawProduct) (v : RawVariant),
      pickInStockVariant p.variants = some v →
      jsTrim v.legacyResourceId = [] →
      processProduct domain p = none) := by
  constructor
  · intro domain p v itm hpick h
    simp only [processProduct, hpick] at h
    by_cases h1 : firstImageUrl p = []
    · rw [if_pos h1] at h; exact absurd h (by simp)
    · rw [if_neg h1] at h
      by_cases h2 : resolvedPrice v = []
      · rw [if_pos h2] at h; exact absurd h (by simp)
      · rw [if_neg h2] at h
        by_cases h3 : jsTrim v.legacyResourceId = []
        · rw [if_pos h3] at h; exact absurd h (by simp)
        · rw [if_neg h3] at h
          injection h with h
          subst h
          exact ⟨rfl, h3, rfl⟩
  · intro domain p v hpick h
    simp [processProduct, hpick, h]

theorem processProduct_itemId_policy_witness :
    wItem.itemId = xmlSafeText (jsTrim wVariant.legacyResourceId) ∧
      jsTrim wVariant.legacyResourceId ≠ [] ∧
      wItem.productNo = strOr (xmlSafeText wVariant.sku) wItem.productName :=
  processProduct_itemId_policy.1 wDomain wProduct wVariant wItem (by decide)
    (by with_unfolding_all decide)

theorem replCore_fuel_irrel (pat rep : Str) :
    ∀ (f1 : Nat), ∀ (f2 : Nat) (l : Str), l.length ≤ f1 → l.length ≤ f2 →
      replCore pat rep f1 l = replCore pat rep f2 l := by
  intro f1
  induction f1 with
  | zero =>
    intro f2 l h1 _
    have : l = [] := List.eq_nil_of_length_eq_zero (Nat.le_zero.mp h1)
    subst this
    cases f2 <;> rfl
  | succ f ih =>
    intro f2 l h1 h2
    cases l with
    | nil => cases f2 <;> rfl
    | cons c cs =>
      cases f2 with
      | zero => simp at h2
      | succ f2' =>
        simp only [replCore]
        simp only [List.length_cons] at h1 h2
        have e1 : (cs.drop (pat.length - 1)).length ≤ f := by
          simp only [List.length_drop]; omega
        have e2 : (cs.drop (pat.length - 1)).length ≤ f2' := by
          simp only [List.length_drop]; omega
        split_ifs with hc
        · rw [ih f2' (cs.drop (pat.length - 1)) e1 e2]
        · rw [ih f2' cs (by omega) (by omega)]

theorem replaceAllCI_cons_nomatch (pat rep : Str) (c : Char) (cs : Str)
    (h : isPrefixCI pat (c :: cs) = false) :
    replaceAllCI pat rep (c :: cs) = c :: replaceAllCI pat rep cs := by
  simp only [replaceAllCI, List.length_cons, replCore]
  rw [if_neg (by simp [h])]

theorem replaceAllCI_match (pat rep l : Str) (hne : pat ≠ [])
    (h : isPrefixCI pat l = true) :
    replaceAllCI pat rep l = rep ++ replaceAllCI pat rep (l.drop pat.length) := by
  cases l with
  | nil => cases pat with
    | nil => exact absurd rfl hne
    | cons a ps => simp [isPrefixCI] at h
  | cons c cs =>
    simp only [replaceAllCI, List.length_cons, replCore]
    rw [if_pos (by simp [h, hne])]
    cases pat with
    | nil => exact absurd rfl hne
    | cons a ps =>
      simp only [List.length_cons, Nat.add_sub_cancel, List.drop_succ_cons]
      exact congrArg (rep ++ ·)
        (replCore_fuel_irrel (a :: ps) rep cs.length
          (List.drop ps.length cs).length (List.drop ps.length cs)
          (by simp only [List.length_drop]; omega) (le_refl _))

theorem isPrefixCI_append_split (p q l : Str) :
    isPrefixCI (p ++ q) l = (isPrefixCI p l && isPrefixCI q (l.drop p.length)) := by
  induction p generalizing l with
  | nil => simp [isPrefixCI]
  | cons a ps ih =>
    cases l with
    | nil => simp [isPrefixCI]
    | cons c cs => simp [isPrefixCI, ih, Bool.and_assoc]

theorem isPrefixCI_length_le (p l : Str) (h : isPrefixCI p l = true) :
    p.length ≤ l.length := by
  induction p generalizing l with
  | nil => simp
  | cons a ps ih =>
    cases l with
    | nil => simp [isPrefixCI] at h
    | cons c cs =>
      simp only [isPrefixCI, Bool.and_eq_true] at h
      simpa using ih cs h.2

theorem isPrefixCI_of_clashAt (p u : Str) :
    ∀ l, clashAt p u = true → isPrefixCI u l = true → isPrefixCI p l = false := by
  induction p generalizing u with
  | nil => intro l hc _; simp [clashAt] at hc
  | cons a ps ih =>
    intro l hc hu
    cases u with
    | nil => simp [clashAt] at hc
    | cons b qs =>
      cases l with
      | nil => simp [isPrefixCI] at hu
      | cons c cs =>
        simp only [isPrefixCI, Bool.and_eq_true] at hu
        simp only [clashAt, List.zip_cons_cons, List.any_cons,
          Bool.or_eq_true] at hc
        rcases hc with hc | hc
        · have hbc : b.toLower = c.toLower := by
            simpa [ciEq, beq_iff_eq] using hu.1
          have hab : a.toLower ≠ b.toLower := by
            simpa [ciEq, beq_iff_eq] using hc
          simp [isPrefixCI, ciEq, beq_iff_eq, hbc ▸ hab]
        · have := ih qs cs (by simpa [clashAt] using hc) hu.2
          simp [isPrefixCI, this]

theorem isPrefixCI_drop (p l : Str) (h : isPrefixCI p l = true) :
    ∀ i, isPrefixCI (p.drop i) (l.drop i) = true := by
  intro i
  induction i generalizing p l with
  | zero => simpa using h
  | succ n ih =>
    cases p with
    | nil => simp [isPrefixCI]
    | cons a ps =>
      cases l with
      | nil => simp [isPrefixCI] at h
      | cons c cs =>
        simp only [isPrefixCI, Bool.and_eq_true] at h
        simpa using ih ps cs h.2

theorem isPrefixCI_append_right (p a b : Str) (h : isPrefixCI p a = true) :
    isPrefixCI p (a ++ b) = true := by
  induction p generalizing a with
  | nil => simp [isPrefixCI]
  | cons x ps ih =>
    cases a with
    | nil => simp [isPrefixCI] at h
    | cons c cs =>
      simp only [isPrefixCI, Bool.and_eq_true] at h
      simp [isPrefixCI, h.1, ih cs h.2]

theorem isPrefixCI_take (p l : Str) (h : isPrefixCI p l = true) :
    isPrefixCI p (l.take p.length) = true := by
  induction p generalizing l with
  | nil => simp [isPrefixCI]
  | cons a ps ih =>
    cases l with
    | nil => simp [isPrefixCI] at h
    | cons c cs =>
      simp only [isPrefixCI, Bool.and_eq_true] at h
      simp [isPrefixCI, h.1, ih cs h.2]

theorem clashAt_of_prefix (p u w : Str) (hc : clashAt p u = true)
    (hu : isPrefixCI u w = true) : clashAt p w = true := by
  induction p generalizing u w with
  | nil => simp [clashAt] at hc
  | cons a ps ih =>
    cases u with
    | nil => simp [clashAt] at hc
    | cons b qs =>
      cases w with
      | nil => simp [isPrefixCI] at hu
      | cons c cs =>
        simp only [isPrefixCI, Bool.and_eq_true] at hu
        simp only [clashAt, List.zip_cons_cons, List.any_cons,
          Bool.or_eq_true] at hc ⊢
        rcases hc with hc | hc
        · left
          have hbc : b.toLower = c.toLower := by
            simpa [ciEq, beq_iff_eq] using hu.1
          simpa [ciEq, beq_iff_eq, hbc] using hc
        · right
          simpa [clashAt] using ih qs cs (by simpa [clashAt] using hc) hu.2

theorem drop_take_drop (l : Str) :
    ∀ (i k : Nat), i ≤ k → l.drop i = (l.take k).drop i ++ l.drop k := by
  induction l with
  | nil => intro i k _; simp
  | cons c cs ih =>
    intro i k hik
    cases i with
    | zero => simp [List.take_append_drop]
    | succ i' =>
      cases k with
      | zero => omega
      | succ k' => simpa using ih i' k' (by omega)

theorem occursCI_drop (pat l : Str) :
    ∀ k, occursCI pat (l.drop k) = true → occursCI pat l = true := by
  induction l with
  | nil => intro k h; simpa using h
  | cons c cs ih =>
    intro k h
    cases k with
    | zero => simpa using h
    | succ k' =>
      simp only [List.drop_succ_cons] at h
      simp only [occursCI, Bool.or_eq_true]
      exact Or.inr (ih k' h)

theorem noCascade_drop (l : Str) (k : Nat) (h : noCascade l = true) :
    noCascade (l.drop k) = true := by
  simp only [noCascade, List.all_eq_true, Bool.not_eq_true'] at h ⊢
  intro p hp
  rcases hb : occursCI p (l.drop k) with - | -
  · rfl
  · exact absurd (occursCI_drop p l k hb) (by simp [h p hp])

theorem noCascade_no_occurrence (l : Str) (p : Str) (hp : p ∈ cascadePats)
    (h : noCascade l = true) : isPrefixCI p l = false := by
  simp only [noCascade, List.all_eq_true, Bool.not_eq_true'] at h
  have := h p hp
  cases l with
  | nil => simpa [occursCI] using this
  | cons c cs =>
    simp only [occursCI, Bool.or_eq_false_iff] at this
    exact this.1

theorem applyPasses_cons_eq (pr : Str × Char) (ps : List (Str × Char))
    (l : Str) :
    applyPasses (pr :: ps) l = applyPasses ps (replaceAllCI pr.1 [pr.2] l) :=
  rfl

theorem applyPasses_append_eq (ps qs : List (Str × Char)) (l : Str) :
    applyPasses (ps ++ qs) l = applyPasses qs (applyPasses ps l) := by
  simp [applyPasses, List.foldl_append]

theorem isPrefixCI_cons_nil (a : Char) (ps : Str) :
    isPrefixCI (a :: ps) [] = false := rfl

theorem decodeBasicEntities_eq_applyPasses (l : Str) :
    decodeBasicEntities l = applyPasses passes l := by
  cases l with
  | nil => rfl
  | cons c cs =>
    simp only [decodeBasicEntities, if_neg (List.cons_ne_nil c cs),
      applyPasses, passes, List.foldl_cons, List.foldl_nil]

theorem isPrefixCI_refl (w : Str) : isPrefixCI w w = true := by
  induction w with
  | nil => rfl
  | cons c cs ih => simp [isPrefixCI, ciEq, ih]

theorem replaceAllCI_nil_pat (rep : Str) : ∀ (fuel : Nat) (l : Str),
    replCore [] rep fuel l = l := by
  intro fuel
  induction fuel with
  | zero => intro l; rfl
  | succ f ih =>
    intro l
    cases l with
    | nil => rfl
    | cons c cs => simp [replCore, ih]

theorem isPrefixCI_thru_pass (pat : Str) (r : Char) :
    ∀ (w v : Str), (∀ h ∈ v, ciEq h r = false) →
      isPrefixCI v (replaceAllCI pat [r] w) = true → isPrefixCI v w = true := by
  intro w
  induction w with
  | nil =>
    intro v hv h
    cases v with
    | nil => rfl
    | cons h' v' =>
      have he : replaceAllCI pat [r] [] = [] := rfl
      rw [he, isPrefixCI_cons_nil] at h
      exact absurd h (by simp)
  | cons c cs ih =>
    intro v hv h
    cases v with
    | nil => rfl
    | cons x v' =>
      by_cases hp : pat = []
      · subst hp
        rw [show replaceAllCI [] [r] (c :: cs) = c :: cs from
          replaceAllCI_nil_pat [r] _ _] at h
        exact h
      by_cases hm : isPrefixCI pat (c :: cs) = true
      · rw [replaceAllCI_match pat [r] (c :: cs) hp hm] at h
        simp only [List.singleton_append, isPrefixCI, Bool.and_eq_true] at h
        exact absurd h.1 (by simp [hv x (by simp)])
      · have hnm : isPrefixCI pat (c :: cs) = false := by
          rcases Bool.eq_false_or_eq_true (isPrefixCI pat (c :: cs)) with
            h' | h'
          · exact absurd h' hm
          · exact h'
        rw [replaceAllCI_cons_nomatch pat [r] c cs hnm] at h
        simp only [isPrefixCI, Bool.and_eq_true] at h ⊢
        exact ⟨h.1, ih v' (fun d hd => hv d (by simp [hd])) h.2⟩

theorem isPrefixCI_thru_applyPasses (ps : List (Str × Char)) :
    ∀ (v w : Str), (∀ pr ∈ ps, ∀ h ∈ v, ciEq h pr.2 = false) →
      isPrefixCI v (applyPasses ps w) = true → isPrefixCI v w = true := by
  induction ps with
  | nil => intro v w _ h; exact h
  | cons pr ps' ih =>
    intro v w hv h
    rw [applyPasses_cons_eq] at h
    have h1 := ih v (replaceAllCI pr.1 [pr.2] w)
      (fun pr' hpr' => hv pr' (by simp [hpr'])) h
    exact isPrefixCI_thru_pass pr.1 pr.2 w v
      (fun d hd => hv pr (by simp) d hd) h1

theorem replaceAllCI_take_push (pat rep : Str) :
    ∀ (k : Nat) (l : Str), k ≤ l.length →
      (∀ i < k, isPrefixCI pat (l.drop i) = false) →
      replaceAllCI pat rep l = l.take k ++ replaceAllCI pat rep (l.drop k) := by
  intro k
  induction k with
  | zero => intro l _ _; simp
  | succ k' ih =>
    intro l hk hcond
    cases l with
    | nil => simp at hk
    | cons c cs =>
      have h0 : isPrefixCI pat (c :: cs) = false := by
        simpa using hcond 0 (by omega)
      rw [replaceAllCI_cons_nomatch pat rep c cs h0,
        ih cs (by simpa using hk)
          (fun i hi => by simpa using hcond (i + 1) (by omega))]
      simp

theorem applyPasses_take_push (ps : List (Str × Char)) :
    ∀ (l : Str) (k : Nat), k ≤ l.length →
      (∀ pr ∈ ps, ∀ i < k, clashAt pr.1 ((l.take k).drop i) = true) →
      applyPasses ps l = l.take k ++ applyPasses ps (l.drop k) := by
  induction ps with
  | nil => intro l k _ _; simp [applyPasses]
  | cons pr ps' ih =>
    intro l k hk hcl
    have htk : (l.take k).length = k := by simp [List.length_take]; omega
    have hfirst : replaceAllCI pr.1 [pr.2] l =
        l.take k ++ replaceAllCI pr.1 [pr.2] (l.drop k) := by
      apply replaceAllCI_take_push pr.1 [pr.2] k l hk
      intro i hi
      rw [drop_take_drop l i k (by omega)]
      exact isPrefixCI_of_clashAt pr.1 ((l.take k).drop i) _
        (hcl pr (by simp) i hi)
        (isPrefixCI_append_right _ _ _ (isPrefixCI_refl _))
    rw [applyPasses_cons_eq, hfirst]
    have hlen2 : k ≤ (l.take k ++ replaceAllCI pr.1 [pr.2] (l.drop k)).length := by
      simp [List.length_append, htk]
    have htake2 : (l.take k ++ replaceAllCI pr.1 [pr.2] (l.drop k)).take k =
        l.take k := List.take_left' htk
    have hdrop2 : (l.take k ++ replaceAllCI pr.1 [pr.2] (l.drop k)).drop k =
        replaceAllCI pr.1 [pr.2] (l.drop k) := List.drop_left' htk
    rw [ih _ k hlen2 (fun pr' hpr' i hi => by
      rw [htake2]; exact hcl pr' (by simp [hpr']) i hi)]
    rw [htake2, hdrop2, applyPasses_cons_eq]

theorem applyPasses_cons_push (ps : List (Str × Char)) (c : Char) :
    ∀ X, (∀ pr ∈ ps, ∃ p₀ pt, pr.1 = p₀ :: pt ∧ ciEq p₀ c = false) →
      applyPasses ps (c :: X) = c :: applyPasses ps X := by
  induction ps with
  | nil => intro X _; rfl
  | cons pr ps' ih =>
    intro X hc
    obtain ⟨p₀, pt, hpr, hciq⟩ := hc pr (by simp)
    have hnm : isPrefixCI pr.1 (c :: X) = false := by
      rw [hpr]; simp [isPrefixCI, hciq]
    rw [applyPasses_cons_eq, replaceAllCI_cons_nomatch _ _ _ _ hnm,
      ih _ (fun pr' hpr' => hc pr' (by simp [hpr'])), applyPasses_cons_eq]

theorem applyPasses_cons_push_blocked :
    ∀ (rest front : List (Str × Char)) (c : Char) (m : Str),
      (∀ pr ∈ front, pr.1 ≠ []) →
      (∀ pr ∈ rest, ∃ p₀ pt, pr.1 = p₀ :: pt ∧
        (ciEq p₀ c = false ∨ isPrefixCI pt m = false)) →
      (∀ pr ∈ rest, ∀ pr' ∈ front ++ rest, ∀ h ∈ pr.1.tail,
        ciEq h pr'.2 = false) →
      applyPasses rest (c :: applyPasses front m) =
        c :: applyPasses (front ++ rest) m := by
  intro rest
  induction rest with
  | nil => intro front c m _ _ _; simp [applyPasses]
  | cons pr rest' ih =>
    intro front c m hf hb hr
    obtain ⟨p₀, pt, hpr, hdisj⟩ := hb pr (by simp)
    have htail : pr.1.tail = pt := by rw [hpr]; rfl
    have hnomatch : isPrefixCI pr.1 (c :: applyPasses front m) = false := by
      rw [hpr]
      simp only [isPrefixCI]
      rcases hdisj with h | h
      · simp [h]
      · rcases Bool.eq_false_or_eq_true
          (isPrefixCI pt (applyPasses front m)) with hY | hY
        · have := isPrefixCI_thru_applyPasses front pt m
            (fun pr' hpr' d hd =>
              hr pr (by simp) pr' (by simp [hpr']) d (by rw [htail]; exact hd))
            hY
          rw [this] at h
          simp at h
        · simp [hY]
    rw [applyPasses_cons_eq, replaceAllCI_cons_nomatch _ _ _ _ hnomatch]
    have hstep : replaceAllCI pr.1 [pr.2] (applyPasses front m) =
        applyPasses (front ++ [pr]) m := by
      rw [applyPasses_append_eq]
      rfl
    rw [hstep]
    have hf2 : ∀ pr' ∈ front ++ [pr], pr'.1 ≠ [] := by
      intro pr' hpr'
      rcases List.mem_append.mp hpr' with h | h
      · exact hf pr' h
      · simp only [List.mem_singleton] at h
        subst h
        rw [hpr]
        simp
    have hb2 : ∀ pr' ∈ rest', ∃ p₀ pt, pr'.1 = p₀ :: pt ∧
        (ciEq p₀ c = false ∨ isPrefixCI pt m = false) := by
      intro pr' hpr'
      exact hb pr' (by simp [hpr'])
    have hr2 : ∀ pr'' ∈ rest', ∀ pr' ∈ (front ++ [pr]) ++ rest',
        ∀ d ∈ pr''.1.tail, ciEq d pr'.2 = false := by
      intro pr'' hpr'' pr' hpr' d hd
      apply hr pr'' (by simp [hpr'']) pr'
      · simp only [List.mem_append, List.mem_cons,
          List.mem_singleton] at hpr' ⊢
        tauto
      · exact hd
    rw [ih (front ++ [pr]) c m hf2 hb2 hr2, List.append_assoc,
      List.singleton_append]

theorem onePassFuel_irrel : ∀ (f1 f2 : Nat) (l : Str), l.length ≤ f1 →
    l.length ≤ f2 → onePassFuel f1 l = onePassFuel f2 l := by
  intro f1
  induction f1 with
  | zero =>
    intro f2 l h1 _
    have : l = [] := List.eq_nil_of_length_eq_zero (Nat.le_zero.mp h1)
    subst this
    cases f2 <;> rfl
  | succ f ih =>
    intro f2 l h1 h2
    cases l with
    | nil => cases f2 <;> rfl
    | cons c cs =>
      cases f2 with
      | zero => simp at h2
      | succ f2' =>
        simp only [List.length_cons] at h1 h2
        simp only [onePassFuel]
        split_ifs <;>
          first
          | exact congrArg _ (ih f2' _
              (by simp only [List.length_drop, List.length_cons]; omega)
              (by simp only [List.length_drop, List.length_cons]; omega))
          | exact congrArg _ (ih f2' cs (by omega) (by omega))

theorem onePassSpec_nbsp (l : Str) (h1 : isPrefixCI entNbsp l = true) :
    decodeEntitiesOnePassSpec l =
      ' ' :: decodeEntitiesOnePassSpec (l.drop 6) := by
  cases l with
  | nil => exact absurd h1 (by decide)
  | cons c cs =>
    simp only [decodeEntitiesOnePassSpec, List.length_cons, onePassFuel]
    rw [if_pos h1]
    exact congrArg _ (onePassFuel_irrel cs.length _ _
      (by simp only [List.length_drop, List.length_cons]; omega) (le_refl _))

theorem onePassSpec_amp (l : Str) (h1 : isPrefixCI entNbsp l = false)
    (h2 : isPrefixCI entAmp l = true) :
    decodeEntitiesOnePassSpec l =
      '&' :: decodeEntitiesOnePassSpec (l.drop 5) := by
  cases l with
  | nil => exact absurd h2 (by decide)
  | cons c cs =>
    simp only [decodeEntitiesOnePassSpec, List.length_cons, onePassFuel]
    rw [if_neg (by simp [h1]), if_pos h2]
    exact congrArg _ (onePassFuel_irrel cs.length _ _
      (by simp only [List.length_drop, List.length_cons]; omega) (le_refl _))

theorem onePassSpec_quot (l : Str) (h1 : isPrefixCI entNbsp l = false)
    (h2 : isPrefixCI entAmp l = false) (h3 : isPrefixCI entQuot l = true) :
    decodeEntitiesOnePassSpec l =
      '"' :: decodeEntitiesOnePassSpec (l.drop 6) := by
  cases l with
  | nil => exact absurd h3 (by decide)
  | cons c cs =>
    simp only [decodeEntitiesOnePassSpec, List.length_cons, onePassFuel]
    rw [if_neg (by simp [h1]), if_neg (by simp [h2]), if_pos h3]
    exact congrArg _ (onePassFuel_irrel cs.length _ _
      (by simp only [List.length_drop, List.length_cons]; omega) (le_refl _))

theorem onePassSpec_apos (l : Str) (h1 : isPrefixCI entNbsp l = false)
    (h2 : isPrefixCI entAmp l = false) (h3 : isPrefixCI entQuot l = false)
    (h4 : isPrefixCI entApos l = true) :
    decodeEntitiesOnePassSpec l =
      '\'' :: decodeEntitiesOnePassSpec (l.drop 6) := by
  cases l with
  | nil => exact absurd h4 (by decide)
  | cons c cs =>
    simp only [decodeEntitiesOnePassSpec, List.length_cons, onePassFuel]
    rw [if_neg (by simp [h1]), if_neg (by simp [h2]), if_neg (by simp [h3]),
      if_pos h4]
    exact congrArg _ (onePassFuel_irrel cs.length _ _
      (by simp only [List.length_drop, List.length_cons]; omega) (le_refl _))

theorem onePassSpec_lt (l : Str) (h1 : isPrefixCI entNbsp l = false)
    (h2 : isPrefixCI entAmp l = false) (h3 : isPrefixCI entQuot l = false)
    (h4 : isPrefixCI entApos l = false) (h5 : isPrefixCI entLt l = true) :
    decodeEntitiesOnePassSpec l =
      '<' :: decodeEntitiesOnePassSpec (l.drop 4) := by
  cases l with
  | nil => exact absurd h5 (by decide)
  | cons c cs =>
    simp only [decodeEntitiesOnePassSpec, List.length_cons, onePassFuel]
    rw [if_neg (by simp [h1]), if_neg (by simp [h2]), if_neg (by simp [h3]),
      if_neg (by simp [h4]), if_pos h5]
    exact congrArg _ (onePassFuel_irrel cs.length _ _
      (by simp only [List.length_drop, List.length_cons]; omega) (le_refl _))

theorem onePassSpec_gt (l : Str) (h1 : isPrefixCI entNbsp l = false)
    (h2 : isPrefixCI entAmp l = false) (h3 : isPrefixCI entQuot l = false)
    (h4 : isPrefixCI entApos l = false) (h5 : isPrefixCI entLt l = false)
    (h6 : isPrefixCI entGt l = true) :
    decodeEntitiesOnePassSpec l =
      '>' :: decodeEntitiesOnePassSpec (l.drop 4) := by
  cases l with
  | nil => exact absurd h6 (by decide)
  | cons c cs =>
    simp only [decodeEntitiesOnePassSpec, List.length_cons, onePassFuel]
    rw [if_neg (by simp [h1]), if_neg (by simp [h2]), if_neg (by simp [h3]),
      if_neg (by simp [h4]), if_neg (by simp [h5]), if_pos h6]
    exact congrArg _ (onePassFuel_irrel cs.length _ _
      (by simp only [List.length_drop, List.length_cons]; omega) (le_refl _))

theorem onePassSpec_none (c : Char) (cs : Str)
    (h1 : isPrefixCI entNbsp (c :: cs) = false)
    (h2 : isPrefixCI entAmp (c :: cs) = false)
    (h3 : isPrefixCI entQuot (c :: cs) = false)
    (h4 : isPrefixCI entApos (c :: cs) = false)
    (h5 : isPrefixCI entLt (c :: cs) = false)
    (h6 : isPrefixCI entGt (c :: cs) = false) :
    decodeEntitiesOnePassSpec (c :: cs) =
      c :: decodeEntitiesOnePassSpec cs := by
  simp only [decodeEntitiesOnePassSpec, List.length_cons, onePassFuel]
  rw [if_neg (by simp [h1]), if_neg (by simp [h2]), if_neg (by simp [h3]),
    if_neg (by simp [h4]), if_neg (by simp [h5]), if_neg (by simp [h6])]

set_option maxHeartbeats 4000000 in
theorem decode_eq_onePass_aux : ∀ (N : Nat) (l : Str), l.length ≤ N →
    noCascade l = true →
    decodeBasicEntities l = decodeEntitiesOnePassSpec l := by
  intro N
  induction N with
  | zero =>
    intro l h _
    have : l = [] := List.eq_nil_of_length_eq_zero (Nat.le_zero.mp h)
    subst this
    rfl
  | succ N ih =>
    intro l hlen hnc
    cases l with
    | nil => rfl
    | cons c cs =>
    simp only [List.length_cons] at hlen
    have hlcs : cs.length ≤ N := by omega
    by_cases hnb : isPrefixCI entNbsp (c :: cs) = true
    · -- the &nbsp; form matches at the head
      rw [decodeBasicEntities_eq_applyPasses,
        show passes = [(entNbsp, ' ')] ++
          [(entAmp, '&'), (entQuot, '"'), (entApos, '\''), (entLt, '<'),
            (entGt, '>')] from rfl,
        applyPasses_append_eq]
      have e1 : applyPasses [(entNbsp, ' ')] (c :: cs) =
          ' ' :: replaceAllCI entNbsp [' '] ((c :: cs).drop 6) := by
        show replaceAllCI entNbsp [' '] (c :: cs) = _
        rw [replaceAllCI_match entNbsp [' '] (c :: cs) (by decide) hnb]
        rfl
      rw [e1]
      rw [applyPasses_cons_push _ ' ' _ ?hpush]
      case hpush =>
        intro pr hpr
        fin_cases hpr
        · exact ⟨'&', "amp;".toList, by decide, by decide⟩
        · exact ⟨'&', "quot;".toList, by decide, by decide⟩
        · exact ⟨'&', "apos;".toList, by decide, by decide⟩
        · exact ⟨'&', "lt;".toList, by decide, by decide⟩
        · exact ⟨'&', "gt;".toList, by decide, by decide⟩
      have e2 : applyPasses
          [(entAmp, '&'), (entQuot, '"'), (entApos, '\''), (entLt, '<'),
            (entGt, '>')] (replaceAllCI entNbsp [' '] ((c :: cs).drop 6)) =
          applyPasses passes ((c :: cs).drop 6) := rfl
      rw [e2, ← decodeBasicEntities_eq_applyPasses,
        ih ((c :: cs).drop 6)
          (by simp only [List.length_drop, List.length_cons]; omega)
          (noCascade_drop _ 6 hnc),
        onePassSpec_nbsp (c :: cs) hnb]
    · simp only [Bool.not_eq_true] at hnb
      by_cases ha : isPrefixCI entAmp (c :: cs) = true
      · -- the &amp; form matches at the head; no cascade can follow
        have hq5 : isPrefixCI "quot;".toList ((c :: cs).drop 5) = false := by
          have h0 := noCascade_no_occurrence (c :: cs) "&amp;quot;".toList
            (by decide) hnc
          rw [show "&amp;quot;".toList = entAmp ++ "quot;".toList from
            by decide, isPrefixCI_append_split,
            show entAmp.length = 5 from rfl] at h0
          simpa [ha] using h0
        have hap5 : isPrefixCI "apos;".toList ((c :: cs).drop 5) = false := by
          have h0 := noCascade_no_occurrence (c :: cs) "&amp;apos;".toList
            (by decide) hnc
          rw [show "&amp;apos;".toList = entAmp ++ "apos;".toList from
            by decide, isPrefixCI_append_split,
            show entAmp.length = 5 from rfl] at h0
          simpa [ha] using h0
        have hlt5 : isPrefixCI "lt;".toList ((c :: cs).drop 5) = false := by
          have h0 := noCascade_no_occurrence (c :: cs) "&amp;lt;".toList
            (by decide) hnc
          rw [show "&amp;lt;".toList = entAmp ++ "lt;".toList from
            by decide, isPrefixCI_append_split,
            show entAmp.length = 5 from rfl] at h0
          simpa [ha] using h0
        have hgt5 : isPrefixCI "gt;".toList ((c :: cs).drop 5) = false := by
          have h0 := noCascade_no_occurrence (c :: cs) "&amp;gt;".toList
            (by decide) hnc
          rw [show "&amp;gt;".toList = entAmp ++ "gt;".toList from
            by decide, isPrefixCI_append_split,
            show entAmp.length = 5 from rfl] at h0
          simpa [ha] using h0
        have hlen5 : 5 ≤ (c :: cs).length := by
          have h0 := isPrefixCI_length_le entAmp _ ha
          rw [show entAmp.length = 5 from rfl] at h0
          exact h0
        have htk : isPrefixCI entAmp ((c :: cs).take 5) = true := by
          have h0 := isPrefixCI_take entAmp _ ha
          rwa [show entAmp.length = 5 from rfl] at h0
        rw [decodeBasicEntities_eq_applyPasses,
          show passes = ([(entNbsp, ' ')] ++ [(entAmp, '&')]) ++
            [(entQuot, '"'), (entApos, '\''), (entLt, '<'), (entGt, '>')]
            from rfl,
          applyPasses_append_eq, applyPasses_append_eq]
        have e1 : applyPasses [(entNbsp, ' ')] (c :: cs) =
            (c :: cs).take 5 ++
              applyPasses [(entNbsp, ' ')] ((c :: cs).drop 5) := by
          apply applyPasses_take_push _ _ 5 hlen5
          intro pr hpr i hi
          fin_cases hpr
          apply clashAt_of_prefix _ (entAmp.drop i) _ ?hcl ?hpre
          case hcl => interval_cases i <;> decide
          case hpre => exact isPrefixCI_drop _ _ htk i
        rw [e1]
        have hpre5 : isPrefixCI entAmp ((c :: cs).take 5 ++
            applyPasses [(entNbsp, ' ')] ((c :: cs).drop 5)) = true :=
          isPrefixCI_append_right _ _ _ htk
        have e2 : replaceAllCI entAmp ['&'] ((c :: cs).take 5 ++
            applyPasses [(entNbsp, ' ')] ((c :: cs).drop 5)) =
            '&' :: applyPasses [(entNbsp, ' '), (entAmp, '&')]
              ((c :: cs).drop 5) := by
          rw [replaceAllCI_match entAmp ['&'] _ (by decide) hpre5,
            show entAmp.length = 5 from rfl]
          have hdl : ((c :: cs).take 5 ++
              applyPasses [(entNbsp, ' ')] ((c :: cs).drop 5)).drop 5 =
              applyPasses [(entNbsp, ' ')] ((c :: cs).drop 5) := by
            apply List.drop_left'
            simp only [List.length_take]
            omega
          rw [hdl]
          rfl
        rw [show applyPasses [(entAmp, '&')] ((c :: cs).take 5 ++
            applyPasses [(entNbsp, ' ')] ((c :: cs).drop 5)) =
            replaceAllCI entAmp ['&'] ((c :: cs).take 5 ++
              applyPasses [(entNbsp, ' ')] ((c :: cs).drop 5)) from rfl, e2]
        have e3 := applyPasses_cons_push_blocked
          [(entQuot, '"'), (entApos, '\''), (entLt, '<'), (entGt, '>')]
          [(entNbsp, ' '), (entAmp, '&')] '&' ((c :: cs).drop 5)
          (by decide) ?hb ?hr
        case hb =>
          intro pr hpr
          fin_cases hpr
          · exact ⟨'&', "quot;".toList, by decide, Or.inr hq5⟩
          · exact ⟨'&', "apos;".toList, by decide, Or.inr hap5⟩
          · exact ⟨'&', "lt;".toList, by decide, Or.inr hlt5⟩
          · exact ⟨'&', "gt;".toList, by decide, Or.inr hgt5⟩
        case hr => decide
        rw [e3, show [(entNbsp, ' '), (entAmp, '&')] ++
          [(entQuot, '"'), (entApos, '\''), (entLt, '<'), (entGt, '>')] =
          passes from rfl, ← decodeBasicEntities_eq_applyPasses,
          ih ((c :: cs).drop 5)
            (by simp only [List.length_drop, List.length_cons]; omega)
            (noCascade_drop _ 5 hnc),
          onePassSpec_amp (c :: cs) hnb ha]
      · simp only [Bool.not_eq_true] at ha
        by_cases hq : isPrefixCI entQuot (c :: cs) = true
        · -- the &quot; form matches at the head
          have hlen6 : 6 ≤ (c :: cs).length := by
            have h0 := isPrefixCI_length_le entQuot _ hq
            rw [show entQuot.length = 6 from rfl] at h0
            exact h0
          have htk : isPrefixCI entQuot ((c :: cs).take 6) = true := by
            have h0 := isPrefixCI_take entQuot _ hq
            rwa [show entQuot.length = 6 from rfl] at h0
          rw [decodeBasicEntities_eq_applyPasses,
            show passes = ([(entNbsp, ' '), (entAmp, '&')] ++
              [(entQuot, '"')]) ++
              [(entApos, '\''), (entLt, '<'), (entGt, '>')] from rfl,
            applyPasses_append_eq, applyPasses_append_eq]
          have e1 : applyPasses [(entNbsp, ' '), (entAmp, '&')] (c :: cs) =
              (c :: cs).take 6 ++
                applyPasses [(entNbsp, ' '), (entAmp, '&')]
                  ((c :: cs).drop 6) := by
            apply applyPasses_take_push _ _ 6 hlen6
            intro pr hpr i hi
            fin_cases hpr <;>
              [apply clashAt_of_prefix _ (entQuot.drop i) _ ?hcl1 ?hpre1;
               apply clashAt_of_prefix _ (entQuot.drop i) _ ?hcl2 ?hpre2]
            case hcl1 => interval_cases i <;> decide
            case hpre1 => exact isPrefixCI_drop _ _ htk i
            case hcl2 => interval_cases i <;> decide
            case hpre2 => exact isPrefixCI_drop _ _ htk i
          rw [e1]
          have hpre6 : isPrefixCI entQuot ((c :: cs).take 6 ++
              applyPasses [(entNbsp, ' '), (entAmp, '&')]
                ((c :: cs).drop 6)) = true :=
            isPrefixCI_append_right _ _ _ htk
          have e2 : replaceAllCI entQuot ['"'] ((c :: cs).take 6 ++
              applyPasses [(entNbsp, ' '), (entAmp, '&')]
                ((c :: cs).drop 6)) =
              '"' :: applyPasses
                [(entNbsp, ' '), (entAmp, '&'), (entQuot, '"')]
                ((c :: cs).drop 6) := by
            rw [replaceAllCI_match entQuot ['"'] _ (by decide) hpre6,
              show entQuot.length = 6 from rfl]
            have hdl : ((c :: cs).take 6 ++
                applyPasses [(entNbsp, ' '), (entAmp, '&')]
                  ((c :: cs).drop 6)).drop 6 =
                applyPasses [(entNbsp, ' '), (entAmp, '&')]
                  ((c :: cs).drop 6) := by
              apply List.drop_left'
              simp only [List.length_take]
              omega
            rw [hdl]
            rfl
          rw [show applyPasses [(entQuot, '"')] ((c :: cs).take 6 ++
              applyPasses [(entNbsp, ' '), (entAmp, '&')]
                ((c :: cs).drop 6)) =
              replaceAllCI entQuot ['"'] ((c :: cs).take 6 ++
                applyPasses [(entNbsp, ' '), (entAmp, '&')]
                  ((c :: cs).drop 6)) from rfl, e2]
          rw [applyPasses_cons_push _ '"' _ ?hpushq]
          case hpushq =>
            intro pr hpr
            fin_cases hpr
            · exact ⟨'&', "apos;".toList, by decide, by decide⟩
            · exact ⟨'&', "lt;".toList, by decide, by decide⟩
            · exact ⟨'&', "gt;".toList, by decide, by decide⟩
          have e4 : applyPasses [(entApos, '\''), (entLt, '<'), (entGt, '>')]
              (applyPasses [(entNbsp, ' '), (entAmp, '&'), (entQuot, '"')]
                ((c :: cs).drop 6)) = applyPasses passes ((c :: cs).drop 6) := by
            rw [← applyPasses_append_eq]
            rfl
          rw [e4, ← decodeBasicEntities_eq_applyPasses,
            ih ((c :: cs).drop 6)
              (by simp only [List.length_drop, List.length_cons]; omega)
              (noCascade_drop _ 6 hnc),
            onePassSpec_quot (c :: cs) hnb ha hq]
        · simp only [Bool.not_eq_true] at hq
          by_cases hap : isPrefixCI entApos (c :: cs) = true
          · -- the &apos; form matches at the head
            have hlen6 : 6 ≤ (c :: cs).length := by
              have h0 := isPrefixCI_length_le entApos _ hap
              rw [show entApos.length = 6 from rfl] at h0
              exact h0
            have htk : isPrefixCI entApos ((c :: cs).take 6) = true := by
              have h0 := isPrefixCI_take entApos _ hap
              rwa [show entApos.length = 6 from rfl] at h0
            rw [decodeBasicEntities_eq_applyPasses,
              show passes = ([(entNbsp, ' '), (entAmp, '&'),
                (entQuot, '"')] ++ [(entApos, '\'')]) ++
                [(entLt, '<'), (entGt, '>')] from rfl,
              applyPasses_append_eq, applyPasses_append_eq]
            have e1 : applyPasses
                [(entNbsp, ' '), (entAmp, '&'), (entQuot, '"')] (c :: cs) =
                (c :: cs).take 6 ++
                  applyPasses [(entNbsp, ' '), (entAmp, '&'), (entQuot, '"')]
                    ((c :: cs).drop 6) := by
              apply applyPasses_take_push _ _ 6 hlen6
              intro pr hpr i hi
              fin_cases hpr <;>
                [apply clashAt_of_prefix _ (entApos.drop i) _ ?icl1 ?ipre1;
                 apply clashAt_of_prefix _ (entApos.drop i) _ ?icl2 ?ipre2;
                 apply clashAt_of_prefix _ (entApos.drop i) _ ?icl3 ?ipre3]
              case icl1 => interval_cases i <;> decide
              case ipre1 => exact isPrefixCI_drop _ _ htk i
              case icl2 => interval_cases i <;> decide
              case ipre2 => exact isPrefixCI_drop _ _ htk i
              case icl3 => interval_cases i <;> decide
              case ipre3 => exact isPrefixCI_drop _ _ htk i
            rw [e1]
            have hpre6 : isPrefixCI entApos ((c :: cs).take 6 ++
                applyPasses [(entNbsp, ' '), (entAmp, '&'), (entQuot, '"')]
                  ((c :: cs).drop 6)) = true :=
              isPrefixCI_append_right _ _ _ htk
            have e2 : replaceAllCI entApos ['\''] ((c :: cs).take 6 ++
                applyPasses [(entNbsp, ' '), (entAmp, '&'), (entQuot, '"')]
                  ((c :: cs).drop 6)) =
                '\'' :: applyPasses
                  [(entNbsp, ' '), (entAmp, '&'), (entQuot, '"'),
                    (entApos, '\'')] ((c :: cs).drop 6) := by
              rw [replaceAllCI_match entApos ['\''] _ (by decide) hpre6,
                show entApos.length = 6 from rfl]
              have hdl : ((c :: cs).take 6 ++
                  applyPasses [(entNbsp, ' '), (entAmp, '&'), (entQuot, '"')]
                    ((c :: cs).drop 6)).drop 6 =
                  applyPasses [(entNbsp, ' '), (entAmp, '&'), (entQuot, '"')]
                    ((c :: cs).drop 6) := by
                apply List.drop_left'
                simp only [List.length_take]
                omega
              rw [hdl]
              rfl
            rw [show applyPasses [(entApos, '\'')] ((c :: cs).take 6 ++
                applyPasses [(entNbsp, ' '), (entAmp, '&'), (entQuot, '"')]
                  ((c :: cs).drop 6)) =
                replaceAllCI entApos ['\''] ((c :: cs).take 6 ++
                  applyPasses [(entNbsp, ' '), (entAmp, '&'), (entQuot, '"')]
                    ((c :: cs).drop 6)) from rfl, e2]
            rw [applyPasses_cons_push _ '\'' _ ?hpusha]
            case hpusha =>
              intro pr hpr
              fin_cases hpr
              · exact ⟨'&', "lt;".toList, by decide, by decide⟩
              · exact ⟨'&', "gt;".toList, by decide, by decide⟩
            have e4 : applyPasses [(entLt, '<'), (entGt, '>')]
                (applyPasses [(entNbsp, ' '), (entAmp, '&'), (entQuot, '"'),
                  (entApos, '\'')] ((c :: cs).drop 6)) =
                applyPasses passes ((c :: cs).drop 6) := by
              rw [← applyPasses_append_eq]
              rfl
            rw [e4, ← decodeBasicEntities_eq_applyPasses,
              ih ((c :: cs).drop 6)
                (by simp only [List.length_drop, List.length_cons]; omega)
                (noCascade_drop _ 6 hnc),
              onePassSpec_apos (c :: cs) hnb ha hq hap]
          · simp only [Bool.not_eq_true] at hap
            by_cases hlt : isPrefixCI entLt (c :: cs) = true
            · -- the &lt; form matches at the head
              have hlen4 : 4 ≤ (c :: cs).length := by
                have h0 := isPrefixCI_length_le entLt _ hlt
                rw [show entLt.length = 4 from rfl] at h0
                exact h0
              have htk : isPrefixCI entLt ((c :: cs).take 4) = true := by
                have h0 := isPrefixCI_take entLt _ hlt
                rwa [show entLt.length = 4 from rfl] at h0
              rw [decodeBasicEntities_eq_applyPasses,
                show passes = ([(entNbsp, ' '), (entAmp, '&'),
                  (entQuot, '"'), (entApos, '\'')] ++ [(entLt, '<')]) ++
                  [(entGt, '>')] from rfl,
                applyPasses_append_eq, applyPasses_append_eq]
              have e1 : applyPasses [(entNbsp, ' '), (entAmp, '&'),
                  (entQuot, '"'), (entApos, '\'')] (c :: cs) =
                  (c :: cs).take 4 ++
                    applyPasses [(entNbsp, ' '), (entAmp, '&'),
                      (entQuot, '"'), (entApos, '\'')] ((c :: cs).drop 4) := by
                apply applyPasses_take_push _ _ 4 hlen4
                intro pr hpr i hi
                fin_cases hpr <;>
                  [apply clashAt_of_prefix _ (entLt.drop i) _ ?jcl1 ?jpre1;
                   apply clashAt_of_prefix _ (entLt.drop i) _ ?jcl2 ?jpre2;
                   apply clashAt_of_prefix _ (entLt.drop i) _ ?jcl3 ?jpre3;
                   apply clashAt_of_prefix _ (entLt.drop i) _ ?jcl4 ?jpre4]
                case jcl1 => interval_cases i <;> decide
                case jpre1 => exact isPrefixCI_drop _ _ htk i
                case jcl2 => interval_cases i <;> decide
                case jpre2 => exact isPrefixCI_drop _ _ htk i
                case jcl3 => interval_cases i <;> decide
                case jpre3 => exact isPrefixCI_drop _ _ htk i
                case jcl4 => interval_cases i <;> decide
                case jpre4 => exact isPrefixCI_drop _ _ htk i
              rw [e1]
              have hpre4 : isPrefixCI entLt ((c :: cs).take 4 ++
                  applyPasses [(entNbsp, ' '), (entAmp, '&'), (entQuot, '"'),
                    (entApos, '\'')] ((c :: cs).drop 4)) = true :=
                isPrefixCI_append_right _ _ _ htk
              have e2 : replaceAllCI entLt ['<'] ((c :: cs).take 4 ++
                  applyPasses [(entNbsp, ' '), (entAmp, '&'), (entQuot, '"'),
                    (entApos, '\'')] ((c :: cs).drop 4)) =
                  '<' :: applyPasses
                    [(entNbsp, ' '), (entAmp, '&'), (entQuot, '"'),
                      (entApos, '\''), (entLt, '<')] ((c :: cs).drop 4) := by
                rw [replaceAllCI_match entLt ['<'] _ (by decide) hpre4,
                  show entLt.length = 4 from rfl]
                have hdl : ((c :: cs).take 4 ++
                    applyPasses [(entNbsp, ' '), (entAmp, '&'),
                      (entQuot, '"'), (entApos, '\'')]
                      ((c :: cs).drop 4)).drop 4 =
                    applyPasses [(entNbsp, ' '), (entAmp, '&'),
                      (entQuot, '"'), (entApos, '\'')] ((c :: cs).drop 4) := by
                  apply List.drop_left'
                  simp only [List.length_take]
                  omega
                rw [hdl]
                rfl
              rw [show applyPasses [(entLt, '<')] ((c :: cs).take 4 ++
                  applyPasses [(entNbsp, ' '), (entAmp, '&'), (entQuot, '"'),
                    (entApos, '\'')] ((c :: cs).drop 4)) =
                  replaceAllCI entLt ['<'] ((c :: cs).take 4 ++
                    applyPasses [(entNbsp, ' '), (entAmp, '&'),
                      (entQuot, '"'), (entApos, '\'')] ((c :: cs).drop 4))
                  from rfl, e2]
              rw [applyPasses_cons_push _ '<' _ ?hpushl]
              case hpushl =>
                intro pr hpr
                fin_cases hpr
                exact ⟨'&', "gt;".toList, by decide, by decide⟩
              have e4 : applyPasses [(entGt, '>')]
                  (applyPasses [(entNbsp, ' '), (entAmp, '&'),
                    (entQuot, '"'), (entApos, '\''), (entLt, '<')]
                    ((c :: cs).drop 4)) =
                  applyPasses passes ((c :: cs).drop 4) := by
                rw [← applyPasses_append_eq]
                rfl
              rw [e4, ← decodeBasicEntities_eq_applyPasses,
                ih ((c :: cs).drop 4)
                  (by simp only [List.length_drop, List.length_cons]; omega)
                  (noCascade_drop _ 4 hnc),
                onePassSpec_lt (c :: cs) hnb ha hq hap hlt]
            · simp only [Bool.not_eq_true] at hlt
              by_cases hgt : isPrefixCI entGt (c :: cs) = true
              · -- the &gt; form matches at the head
                have hlen4 : 4 ≤ (c :: cs).length := by
                  have h0 := isPrefixCI_length_le entGt _ hgt
                  rw [show entGt.length = 4 from rfl] at h0
                  exact h0
                have htk : isPrefixCI entGt ((c :: cs).take 4) = true := by
                  have h0 := isPrefixCI_take entGt _ hgt
                  rwa [show entGt.length = 4 from rfl] at h0
                rw [decodeBasicEntities_eq_applyPasses,
                  show passes = [(entNbsp, ' '), (entAmp, '&'),
                    (entQuot, '"'), (entApos, '\''), (entLt, '<')] ++
                    [(entGt, '>')] from rfl,
                  applyPasses_append_eq]
                have e1 : applyPasses [(entNbsp, ' '), (entAmp, '&'),
                    (entQuot, '"'), (entApos, '\''), (entLt, '<')] (c :: cs) =
                    (c :: cs).take 4 ++
                      applyPasses [(entNbsp, ' '), (entAmp, '&'),
                        (entQuot, '"'), (entApos, '\''), (entLt, '<')]
                        ((c :: cs).drop 4) := by
                  apply applyPasses_take_push _ _ 4 hlen4
                  intro pr hpr i hi
                  fin_cases hpr <;>
                    [apply clashAt_of_prefix _ (entGt.drop i) _ ?kcl1 ?kpre1;
                     apply clashAt_of_prefix _ (entGt.drop i) _ ?kcl2 ?kpre2;
                     apply clashAt_of_prefix _ (entGt.drop i) _ ?kcl3 ?kpre3;
                     apply clashAt_of_prefix _ (entGt.drop i) _ ?kcl4 ?kpre4;
                     apply clashAt_of_prefix _ (entGt.drop i) _ ?kcl5 ?kpre5]
                  case kcl1 => interval_cases i <;> decide
                  case kpre1 => exact isPrefixCI_drop _ _ htk i
                  case kcl2 => interval_cases i <;> decide
                  case kpre2 => exact isPrefixCI_drop _ _ htk i
                  case kcl3 => interval_cases i <;> decide
                  case kpre3 => exact isPrefixCI_drop _ _ htk i
                  case kcl4 => interval_cases i <;> decide
                  case kpre4 => exact isPrefixCI_drop _ _ htk i
                  case kcl5 => interval_cases i <;> decide
                  case kpre5 => exact isPrefixCI_drop _ _ htk i
                rw [e1]
                have hpre4 : isPrefixCI entGt ((c :: cs).take 4 ++
                    applyPasses [(entNbsp, ' '), (entAmp, '&'),
                      (entQuot, '"'), (entApos, '\''), (entLt, '<')]
                      ((c :: cs).drop 4)) = true :=
                  isPrefixCI_append_right _ _ _ htk
                have e2 : replaceAllCI entGt ['>'] ((c :: cs).take 4 ++
                    applyPasses [(entNbsp, ' '), (entAmp, '&'),
                      (entQuot, '"'), (entApos, '\''), (entLt, '<')]
                      ((c :: cs).drop 4)) =
                    '>' :: applyPasses passes ((c :: cs).drop 4) := by
                  rw [replaceAllCI_match entGt ['>'] _ (by decide) hpre4,
                    show entGt.length = 4 from rfl]
                  have hdl : ((c :: cs).take 4 ++
                      applyPasses [(entNbsp, ' '), (entAmp, '&'),
                        (entQuot, '"'), (entApos, '\''), (entLt, '<')]
                        ((c :: cs).drop 4)).drop 4 =
                      applyPasses [(entNbsp, ' '), (entAmp, '&'),
                        (entQuot, '"'), (entApos, '\''), (entLt, '<')]
                        ((c :: cs).drop 4) := by
                    apply List.drop_left'
                    simp only [List.length_take]
                    omega
                  rw [hdl]
                  rfl
                rw [show applyPasses [(entGt, '>')] ((c :: cs).take 4 ++
                    applyPasses [(entNbsp, ' '), (entAmp, '&'),
                      (entQuot, '"'), (entApos, '\''), (entLt, '<')]
                      ((c :: cs).drop 4)) =
                    replaceAllCI entGt ['>'] ((c :: cs).take 4 ++
                      applyPasses [(entNbsp, ' '), (entAmp, '&'),
                        (entQuot, '"'), (entApos, '\''), (entLt, '<')]
                        ((c :: cs).drop 4)) from rfl, e2]
                rw [← decodeBasicEntities_eq_applyPasses,
                  ih ((c :: cs).drop 4)
                    (by simp only [List.length_drop, List.length_cons]; omega)
                    (noCascade_drop _ 4 hnc),
                  onePassSpec_gt (c :: cs) hnb ha hq hap hlt hgt]
              · simp only [Bool.not_eq_true] at hgt
                -- no form matches at the head
                rw [decodeBasicEntities_eq_applyPasses,
                  show passes = [(entNbsp, ' ')] ++
                    [(entAmp, '&'), (entQuot, '"'), (entApos, '\''),
                      (entLt, '<'), (entGt, '>')] from rfl,
                  applyPasses_append_eq]
                have e1 : applyPasses [(entNbsp, ' ')] (c :: cs) =
                    c :: applyPasses [(entNbsp, ' ')] cs := by
                  show replaceAllCI entNbsp [' '] (c :: cs) = _
                  rw [replaceAllCI_cons_nomatch entNbsp [' '] c cs hnb]
                  rfl
                rw [e1]
                have hblock : ∀ pr ∈ [(entAmp, '&'), (entQuot, '"'),
                    (entApos, '\''), (entLt, '<'), (entGt, '>')],
                    ∃ p₀ pt, pr.1 = p₀ :: pt ∧
                      (ciEq p₀ c = false ∨ isPrefixCI pt cs = false) := by
                  intro pr hpr
                  have hsplit : ∀ (pt : Str), isPrefixCI ('&' :: pt)
                      (c :: cs) = false →
                      ciEq '&' c = false ∨ isPrefixCI pt cs = false := by
                    intro pt h0
                    simp only [isPrefixCI] at h0
                    rcases Bool.eq_false_or_eq_true (ciEq '&' c) with hc | hc
                    · rw [hc, Bool.true_and] at h0
                      exact Or.inr h0
                    · exact Or.inl hc
                  fin_cases hpr
                  · exact ⟨'&', "amp;".toList, by decide,
                      hsplit _ (by rw [show ('&' :: "amp;".toList) = entAmp
                        from by decide]; exact ha)⟩
                  · exact ⟨'&', "quot;".toList, by decide,
                      hsplit _ (by rw [show ('&' :: "quot;".toList) = entQuot
                        from by decide]; exact hq)⟩
                  · exact ⟨'&', "apos;".toList, by decide,
                      hsplit _ (by rw [show ('&' :: "apos;".toList) = entApos
                        from by decide]; exact hap)⟩
                  · exact ⟨'&', "lt;".toList, by decide,
                      hsplit _ (by rw [show ('&' :: "lt;".toList) = entLt
                        from by decide]; exact hlt)⟩
                  · exact ⟨'&', "gt;".toList, by decide,
                      hsplit _ (by rw [show ('&' :: "gt;".toList) = entGt
                        from by decide]; exact hgt)⟩
                have e3 := applyPasses_cons_push_blocked
                  [(entAmp, '&'), (entQuot, '"'), (entApos, '\''),
                    (entLt, '<'), (entGt, '>')]
                  [(entNbsp, ' ')] c cs (by decide) hblock (by decide)
                rw [e3, show [(entNbsp, ' ')] ++
                  [(entAmp, '&'), (entQuot, '"'), (entApos, '\''),
                    (entLt, '<'), (entGt, '>')] = passes from rfl,
                  ← decodeBasicEntities_eq_applyPasses,
                  ih cs hlcs (noCascade_drop (c :: cs) 1 hnc),
                  onePassSpec_none c cs hnb ha hq hap hlt hgt]

/-- The sequential replacement passes of decodeBasicEntities cascade: on the
input text "&amp;quot;" the decoder of src/server.js produces a literal double
quote, whereas a decoder that replaces exactly the six entity forms of the
original input and leaves every other character sequence untouched (the
one-pass specification decoder) leaves the text "&quot;". -/
theorem decode_cascades_counterexample :
    decodeBasicEntities ("&amp;quot;".toList) = "\"".toList ∧
    decodeEntitiesOnePassSpec ("&amp;quot;".toList) = "&quot;".toList ∧
    decodeBasicEntities ("&amp;quot;".toList) ≠
      decodeEntitiesOnePassSpec ("&amp;quot;".toList) :=
  ⟨by decide, by decide, by decide⟩

/-- C7: decodeBasicEntities replaces exactly the six case-insensitive entity
forms nbsp, amp, quot, apos, lt, gt with their literal characters and leaves
every other character sequence untouched — it agrees with the left-to-right
one-pass specification decoder — provided the input contains no cascading
occurrence, i.e. no case-insensitive occurrence of an entity form that only
arises after the amp pass (such as the text "&amp;quot;"); and empty input
yields the empty string. -/
theorem decodeBasicEntities_onePass (l : Str) (h : noCascade l = true) :
    decodeBasicEntities l = decodeEntitiesOnePassSpec l ∧
    decodeBasicEntities ([] : Str) = ([] : Str) :=
  ⟨decode_eq_onePass_aux l.length l (le_refl _) h, rfl⟩

theorem decodeBasicEntities_onePass_witness :
    noCascade ("&lt;b&gt; &amp; x &NBSP; &Quot;".toList) = true ∧
    decodeBasicEntities ("&lt;b&gt; &amp; x &NBSP; &Quot;".toList) =
      decodeEntitiesOnePassSpec ("&lt;b&gt; &amp; x &NBSP; &Quot;".toList) ∧
    decodeBasicEntities ([] : Str) = ([] : Str) :=
  ⟨by decide,
    (decodeBasicEntities_onePass ("&lt;b&gt; &amp; x &NBSP; &Quot;".toList)
      (by decide)).1,
    (decodeBasicEntities_onePass ("&lt;b&gt; &amp; x &NBSP; &Quot;".toList)
      (by decide)).2⟩

end Zbozi
